import Mathlib

/-!
# eraser.cpp: the erase engine and the verification scanner

A shallow embedding of `src/eraser.cpp` (TommyV6/erase).

Conventions of the embedding.

* `unsigned long long` and `size_t` are 64-bit (LP64 Linux, the platform the
  program targets through `linux/fs.h`).  Values are `Nat`; every C++ addition
  is `u64_add` (reduction modulo `2 ^ 64`) and every subtraction is `u64_sub`.
* The operating system is an oracle, `World`.  `read(2)` and `write(2)` never
  transfer more than the requested count; the oracle carries that contract
  (`read_le`, `write_le`).  A negative result is a failure.
* `keep_running` is the volatile flag of the program.  The only writer is
  `handle_signal`, run when `SIGINT` is delivered; `World.sigint i` says whether
  a `SIGINT` is delivered between the reads number `i - 1` and `i` of the flag.
* Wall-clock durations, speeds and console output are not modelled.
* The allocation of the zero buffer is an oracle too (`World.alloc_ok`): when it fails,
  the run ends before the erase loop.
* Loops that the source does not bound are run with fuel; the result
  `none` / `pending` means the fuel ran out before the loop ended.
-/

namespace Eraser

/-! ## Machine arithmetic -/

/-- Largest `unsigned long long`, `std::numeric_limits<unsigned long long>::max()`. -/
def ULLONG_MAX : Nat := 2 ^ 64 - 1

/-- Unsigned 64-bit addition. -/
def u64_add (a b : Nat) : Nat := (a + b) % 2 ^ 64

/-- Unsigned 64-bit subtraction. -/
def u64_sub (a b : Nat) : Nat := (a % 2 ^ 64 + 2 ^ 64 - b % 2 ^ 64) % 2 ^ 64

/-! ## Exit codes (`enum ExitCode`) -/

def EXIT_OK : Nat := 0
def EXIT_INVALID_ARGUMENTS : Nat := 2
def EXIT_OPEN_FAILED : Nat := 3
def EXIT_SIZE_FAILED : Nat := 4
def EXIT_SEEK_FAILED : Nat := 5
def EXIT_WRITE_FAILED : Nat := 6
def EXIT_USER_ABORTED : Nat := 7

/-- Not a member of `enum ExitCode` and not a return value of `main`: the status
(128 + `SIGABRT`) of a process that `std::terminate` ends after the uncaught
`std::bad_alloc` of `new char[erase_size]`. -/
def TERMINATED_BAD_ALLOC : Nat := 134

/-! ## The environment -/

/-- Signal number of `SIGINT`. -/
def SIGINT : Nat := 2

/-- The operating system and the operator, as seen by one run of the program. -/
structure World where
  /-- Byte stored at an absolute offset of the target. -/
  content : Nat → Nat
  /-- Whether `SIGINT` is delivered just before the given read of `keep_running`. -/
  sigint : Nat → Bool
  /-- Result of the `lseek(fd, 0, SEEK_SET)` of `verify_target_content`. -/
  verify_lseek_result : Int
  /-- Result of the `read` call with the given index and requested count. -/
  read_result : Nat → Nat → Int
  /-- A `read` never returns more than the requested count. -/
  read_le : ∀ i c, read_result i c ≤ (c : Int)
  /-- Result of the `lseek` call with the given index in the erase loop. -/
  lseek_result : Nat → Int
  /-- Result of the `write` call with the given index and requested count. -/
  write_result : Nat → Nat → Int
  /-- A `write` never returns more than the requested count. -/
  write_le : ∀ i c, write_result i c ≤ (c : Int)
  /-- Line delivered by `std::getline(std::cin, answer)`. -/
  stdin_line : List Char
  /-- Value of `std::cin.good()` after the `getline`. -/
  stdin_good : Bool
  /-- Whether `new char[n]` and the `memset` over the `n` bytes succeed. -/
  alloc_ok : Nat → Bool

/-- The signal handler: `SIGINT` clears `keep_running`, other signals leave it. -/
def handle_signal (keep_running : Bool) (signal : Nat) : Bool :=
  if signal = SIGINT then false else keep_running

/-- The flag `keep_running` together with the number of times it has been read. -/
structure Flag where
  keep_running : Bool
  polls : Nat
deriving DecidableEq, Repr

/-- State of the flag when the program starts: `volatile bool keep_running = true`. -/
def Flag.initial : Flag := ⟨true, 0⟩

/-- One read of `keep_running`: a pending `SIGINT` is handled first. -/
def poll (w : World) (f : Flag) : Flag :=
  ⟨if w.sigint f.polls then handle_signal f.keep_running SIGINT else f.keep_running,
   f.polls + 1⟩

/-! ## The erase loop (`main`, lines 481-531) -/

/-- One call of `write` in the erase loop. -/
structure WriteCall where
  /-- Value of `bytes_written` when the call is made. -/
  bytes_written : Nat
  /-- The count passed to `write`. -/
  requested : Nat
  /-- The value `write` returned. -/
  result : Int
deriving DecidableEq, Repr

/-- Values of one completed step of the erase loop, as handed to `print_progress`. -/
structure StepRecord where
  offset : Nat
  bytes_to_write : Nat
  total_erased : Nat
  processed_bytes : Nat
deriving DecidableEq, Repr

/-- Variables of the erase loop and the log of its system calls. -/
structure EraseState where
  offset : Nat
  total_erased : Nat
  flag : Flag
  /-- Offsets passed to `lseek`, oldest first. -/
  seeks : List Nat
  /-- Calls of `write`, oldest first. -/
  writes : List WriteCall
  /-- Completed steps, oldest first. -/
  steps : List StepRecord
deriving DecidableEq, Repr

/-- State at `for (unsigned long long offset = 0; ...` with `total_erased = 0`. -/
def EraseState.initial (f : Flag) : EraseState :=
  { offset := 0, total_erased := 0, flag := f, seeks := [], writes := [], steps := [] }

/-- How the inner `while (bytes_written < bytes_to_write)` loop ended. -/
inductive WriteOutcome where
  /-- The loop condition became false. -/
  | completed (bytes_written : Nat) (writes : List WriteCall)
  /-- A `write` returned a negative value or zero: `return EXIT_WRITE_FAILED`. -/
  | failed (writes : List WriteCall)
  /-- The fuel ran out. -/
  | out_of_fuel
deriving DecidableEq, Repr

/-- The inner loop of lines 497-514.  `writes` is the log of all earlier calls.  The
first argument is fuel: an iteration that goes on has written at least one byte, so
`bytes_to_write` iterations are enough (`write_loop_ne_out_of_fuel`). -/
def write_loop (w : World) (bytes_to_write : Nat) :
    Nat → Nat → List WriteCall → WriteOutcome
  | 0, bytes_written, writes =>
    if bytes_written < bytes_to_write then .out_of_fuel else .completed bytes_written writes
  | fuel + 1, bytes_written, writes =>
    if bytes_written < bytes_to_write then
      let requested := u64_sub bytes_to_write bytes_written
      let write_result := w.write_result writes.length requested
      let writes1 := writes ++ [⟨bytes_written, requested, write_result⟩]
      if write_result < 0 then .failed writes1
      else if write_result = 0 then .failed writes1
      else write_loop w bytes_to_write fuel (u64_add bytes_written write_result.toNat) writes1
    else .completed bytes_written writes

/-- How one pass through the body of the erase loop ended. -/
inductive StepOutcome where
  /-- The body ran to its end and `offset` was advanced. -/
  | next (s : EraseState)
  /-- The body executed `return code`. -/
  | returned (code : Nat) (s : EraseState)
  /-- The fuel of the inner loop ran out. -/
  | out_of_fuel
deriving DecidableEq, Repr

/-- The body of the erase loop (lines 485-530) followed by the increment
`offset += (erase_size + skip_size)`.  Called with `offset < device_size`. -/
def erase_step (w : World) (device_size erase_size skip_size : Nat) (simulate_mode : Bool)
    (s : EraseState) : StepOutcome :=
  let seeks1 := s.seeks ++ [s.offset]
  if w.lseek_result s.seeks.length < 0 then
    .returned EXIT_SEEK_FAILED { s with seeks := seeks1 }
  else
    let bytes_to_write := min erase_size (u64_sub device_size s.offset)
    let finish (writes1 : List WriteCall) : StepOutcome :=
      let total_erased1 := u64_add s.total_erased bytes_to_write
      let processed_bytes := min (u64_add (u64_add s.offset erase_size) skip_size) device_size
      .next { offset := u64_add s.offset (u64_add erase_size skip_size)
              total_erased := total_erased1
              flag := s.flag
              seeks := seeks1
              writes := writes1
              steps := s.steps ++ [⟨s.offset, bytes_to_write, total_erased1, processed_bytes⟩] }
    if simulate_mode then finish s.writes
    else
      match write_loop w bytes_to_write bytes_to_write 0 s.writes with
      | .completed _ writes1 => finish writes1
      | .failed writes1 => .returned EXIT_WRITE_FAILED { s with seeks := seeks1, writes := writes1 }
      | .out_of_fuel => .out_of_fuel

/-- The state in which a completed step leaves the loop. -/
def step_result (device_size erase_size skip_size : Nat) (s : EraseState)
    (writes1 : List WriteCall) : EraseState :=
  { offset := u64_add s.offset (u64_add erase_size skip_size)
    total_erased := u64_add s.total_erased (min erase_size (u64_sub device_size s.offset))
    flag := s.flag
    seeks := s.seeks ++ [s.offset]
    writes := writes1
    steps := s.steps ++ [⟨s.offset, min erase_size (u64_sub device_size s.offset),
      u64_add s.total_erased (min erase_size (u64_sub device_size s.offset)),
      min (u64_add (u64_add s.offset erase_size) skip_size) device_size⟩] }

/-- How the erase loop ended. -/
inductive LoopOutcome where
  /-- The loop condition `offset < device_size && keep_running` was false. -/
  | exited (s : EraseState)
  /-- The body executed `return code`. -/
  | returned (code : Nat) (s : EraseState)
  /-- The fuel ran out with the loop still running. -/
  | pending (s : EraseState)
deriving DecidableEq, Repr

/-- The erase loop of lines 484-531; the fuel bounds the number of steps.
`keep_running` is read only when `offset < device_size` holds (`&&`). -/
def erase_loop (w : World) (device_size erase_size skip_size : Nat) (simulate_mode : Bool) :
    Nat → EraseState → LoopOutcome
  | 0, s => .pending s
  | fuel + 1, s =>
    if s.offset < device_size then
      let s1 := { s with flag := poll w s.flag }
      if s1.flag.keep_running then
        match erase_step w device_size erase_size skip_size simulate_mode s1 with
        | .next s2 => erase_loop w device_size erase_size skip_size simulate_mode fuel s2
        | .returned code s2 => .returned code s2
        | .out_of_fuel => .pending s1
      else .exited s1
    else .exited s

/-- State carried by a loop outcome. -/
def LoopOutcome.state : LoopOutcome → EraseState
  | .exited s => s
  | .returned _ s => s
  | .pending s => s

/-! ## The verification scanner (`verify_target_content`, lines 72-144) -/

/-- The counters of `struct VerificationStats`; `duration_seconds` is not modelled. -/
structure VerificationStats where
  bytes_read : Nat
  zero_bytes : Nat
  non_zero_bytes : Nat
  first_non_zero_offset : Nat
deriving DecidableEq, Repr

/-- The value `VerificationStats{}` built from the default member initialisers. -/
def VerificationStats.fresh : VerificationStats :=
  { bytes_read := 0, zero_bytes := 0, non_zero_bytes := 0, first_non_zero_offset := ULLONG_MAX }

/-- The constant `verify_chunk_size`, 4 MiB. -/
def verify_chunk_size : Nat := 4 * 1024 * 1024

/-- How the `for` loop over the bytes of one chunk ended. -/
inductive ChunkOutcome where
  /-- The loop ran through all `read_result` bytes. -/
  | scanned (stats : VerificationStats) (chunk_non_zero : Nat)
  /-- The loop executed `return true` at the first non-zero byte. -/
  | stopped (stats : VerificationStats)
deriving DecidableEq, Repr

/-- The `for (ssize_t index = 0; index < read_result; ++index)` loop of lines 105-122.
The first argument is `read_result - index`, the number of bytes still to look at.
The file position of the read equals `offset`, so `read_buffer[index]` is the byte
of the target at `offset + index`. -/
def scan_chunk (w : World) (stop_on_first_non_zero : Bool) (offset : Nat) :
    Nat → Nat → VerificationStats → Nat → ChunkOutcome
  | 0, _, stats, chunk_non_zero => .scanned stats chunk_non_zero
  | remaining + 1, index, stats, chunk_non_zero =>
    if w.content (offset + index) ≠ 0 then
      let stats1 :=
        if stats.first_non_zero_offset = ULLONG_MAX then
          { stats with first_non_zero_offset := u64_add offset index }
        else stats
      if stop_on_first_non_zero then
        let non_zero_bytes := u64_add stats1.non_zero_bytes 1
        let bytes_read := u64_add stats1.bytes_read (index + 1)
        .stopped { stats1 with
          non_zero_bytes := non_zero_bytes
          bytes_read := bytes_read
          zero_bytes := u64_sub bytes_read non_zero_bytes }
      else
        scan_chunk w stop_on_first_non_zero offset remaining (index + 1) stats1
          (u64_add chunk_non_zero 1)
    else
      scan_chunk w stop_on_first_non_zero offset remaining (index + 1) stats chunk_non_zero

/-- What a call of `verify_target_content` leaves behind. -/
structure VerifyResult where
  /-- The return value. -/
  ok : Bool
  /-- The out-parameter `stats`. -/
  stats : VerificationStats
  /-- The flag after the last read of `keep_running`. -/
  flag : Flag
  /-- Number of `read` calls made. -/
  reads : Nat
  /-- Value of `stats` after each chunk that reached line 127, oldest first. -/
  chunks : List VerificationStats
deriving DecidableEq, Repr

/-- The `while (offset < target_size && keep_running)` loop of lines 91-138 and the
`return true` of line 143.  The arguments after the fuel are `offset`, the flag, the
number of `read` calls made, `stats` and the statistics recorded so far.  The fuel
bounds the number of chunks; a chunk that does not end the loop advances `offset` by at
least one byte, so `target_size + 1` is enough (`verify_loop_full`, `verify_loop_zero`). -/
def verify_loop (w : World) (target_size : Nat) (stop_on_first_non_zero : Bool) :
    Nat → Nat → Flag → Nat → VerificationStats → List VerificationStats → Option VerifyResult
  | 0, _, _, _, _, _ => none
  | fuel + 1, offset, flag, reads, stats, chunks =>
    if offset < target_size then
      let flag1 := poll w flag
      if flag1.keep_running then
        let bytes_to_read := min verify_chunk_size (u64_sub target_size offset)
        let read_result := w.read_result reads bytes_to_read
        if read_result < 0 then some ⟨false, stats, flag1, reads + 1, chunks⟩
        else if read_result = 0 then some ⟨true, stats, flag1, reads + 1, chunks⟩
        else
          match scan_chunk w stop_on_first_non_zero offset read_result.toNat 0 stats 0 with
          | .stopped stats1 => some ⟨true, stats1, flag1, reads + 1, chunks⟩
          | .scanned stats1 chunk_non_zero =>
            let bytes_read := u64_add stats1.bytes_read read_result.toNat
            let non_zero_bytes := u64_add stats1.non_zero_bytes chunk_non_zero
            let stats2 : VerificationStats :=
              { stats1 with
                bytes_read := bytes_read
                non_zero_bytes := non_zero_bytes
                zero_bytes := u64_sub bytes_read non_zero_bytes }
            verify_loop w target_size stop_on_first_non_zero fuel
              (u64_add offset read_result.toNat) flag1 (reads + 1) stats2 (chunks ++ [stats2])
      else some ⟨true, stats, flag1, reads, chunks⟩
    else some ⟨true, stats, flag, reads, chunks⟩

/-- The function `verify_target_content`.  The parameter `show_progress` only
selects console output and is left out; `flag` is the state of `keep_running`
at the call. -/
def verify_target_content (w : World) (target_size : Nat) (stop_on_first_non_zero : Bool)
    (flag : Flag) (fuel : Nat) : Option VerifyResult :=
  if w.verify_lseek_result < 0 then some ⟨false, VerificationStats.fresh, flag, 0, []⟩
  else
    verify_loop w target_size stop_on_first_non_zero fuel 0 flag 0 VerificationStats.fresh []

/-! ## The interactive gate and the countdown -/

/-- The function `std::tolower` in the "C" locale. -/
def tolower (c : Char) : Char := c.toLower

/-- The function `ask_user_to_continue`. -/
def ask_user_to_continue (w : World) : Bool :=
  if !w.stdin_good then false
  else
    let answer := w.stdin_line.map tolower
    answer == ['y'] || answer == ['y', 'e', 's']

/-- The `for (int i = 5; i > 0; --i)` loop of `countdown`; the first argument is `i`. -/
def countdown_loop (w : World) : Nat → Flag → Flag
  | 0, flag => flag
  | i + 1, flag =>
    let flag1 := poll w flag
    if !flag1.keep_running then flag1 else countdown_loop w i flag1

/-- The function `countdown`. -/
def countdown (w : World) (flag : Flag) : Flag := countdown_loop w 5 flag

/-! ## `main` from line 420 on -/

/-- The configuration `main` has built when it reaches line 420: options parsed,
sizes converted by `parse_size_mb`, target opened, `device_size > 0` determined. -/
structure Config where
  simulate_mode : Bool
  verify_zero_mode : Bool
  verify_only_mode : Bool
  device_size : Nat
  erase_size : Nat
  skip_size : Nat
deriving DecidableEq, Repr

/-- What one run of `main` did. -/
structure MainResult where
  /-- The value `main` returned. -/
  exit_code : Nat
  /-- The scan, when `verify_target_content` was called. -/
  verify : Option VerifyResult
  /-- The answer of `ask_user_to_continue`, when it was called. -/
  gate : Option Bool
  /-- The erase loop at its end, when it was entered. -/
  erase : Option EraseState
  /-- The closing report of lines 538-546: `some true` for "completed successfully",
  `some false` for "interrupted by user", `none` when the report is not reached. -/
  completed : Option Bool
deriving DecidableEq, Repr

/-- Lines 467-558 of `main`: countdown, allocation of the zero buffer (real runs only),
erase loop, closing report.  When `new char[erase_size]` fails, nothing catches the
`std::bad_alloc` and the process is terminated before the loop: the result then
carries `TERMINATED_BAD_ALLOC` and no erase loop. -/
def main_erase (w : World) (c : Config) (fuel : Nat) (flag : Flag)
    (verify : Option VerifyResult) (gate : Option Bool) : Option MainResult :=
  let flag1 := poll w (countdown w flag)
  if !flag1.keep_running then some ⟨0, verify, gate, none, none⟩
  else if !c.simulate_mode && !w.alloc_ok c.erase_size then
    some ⟨TERMINATED_BAD_ALLOC, verify, gate, none, none⟩
  else
    match erase_loop w c.device_size c.erase_size c.skip_size c.simulate_mode fuel
        (EraseState.initial flag1) with
    | .pending _ => none
    | .returned code s => some ⟨code, verify, gate, some s, none⟩
    | .exited s =>
      let flag2 := poll w s.flag
      some ⟨EXIT_OK, verify, gate, some { s with flag := flag2 }, some flag2.keep_running⟩

/-- Lines 420-558 of `main`.  `none` means the fuel ran out. -/
def main (w : World) (c : Config) (fuel : Nat) : Option MainResult :=
  if c.verify_only_mode then
    match verify_target_content w c.device_size false Flag.initial fuel with
    | none => none
    | some r =>
      if !r.ok then some ⟨EXIT_SIZE_FAILED, some r, none, none, none⟩
      else if !(poll w r.flag).keep_running then some ⟨EXIT_USER_ABORTED, some r, none, none, none⟩
      else some ⟨EXIT_OK, some r, none, none, none⟩
  else if c.verify_zero_mode then
    match verify_target_content w c.device_size true Flag.initial fuel with
    | none => none
    | some r =>
      if !r.ok then some ⟨EXIT_SIZE_FAILED, some r, none, none, none⟩
      else if r.stats.first_non_zero_offset ≠ ULLONG_MAX then
        if !ask_user_to_continue w then some ⟨EXIT_USER_ABORTED, some r, some false, none, none⟩
        else main_erase w c fuel r.flag (some r) (some true)
      else main_erase w c fuel r.flag (some r) none
  else main_erase w c fuel Flag.initial none none

/-! ## Size arguments (`parse_size_mb`, lines 162-205, and lines 349-361 of `main`) -/

/-- Unsigned 64-bit multiplication. -/
def u64_mul (a b : Nat) : Nat := (a * b) % 2 ^ 64

/-- Largest `size_t`, `std::numeric_limits<size_t>::max()`. -/
def SIZE_MAX : Nat := 2 ^ 64 - 1

/-- The constant `bytes_per_mb`, `1024ULL * 1024ULL`. -/
def bytes_per_mb : Nat := 1024 * 1024

/-- The library function `isspace` in the "C" locale: the space and the characters
9 to 13 (tab, line feed, vertical tab, form feed, carriage return). -/
def isspace (c : Char) : Bool := c.toNat = 32 || (9 ≤ c.toNat && c.toNat ≤ 13)

/-- The optional sign of the subject sequence of `strtoull`: whether it is a minus
sign, and the characters after it. -/
def strip_sign : List Char → Bool × List Char
  | [] => (false, [])
  | c :: rest =>
    if c = '+' then (false, rest)
    else if c = '-' then (true, rest)
    else (false, c :: rest)

/-- Value of a sequence of decimal digits. -/
def decimal_value (digits : List Char) : Nat :=
  digits.foldl (fun acc d => 10 * acc + (d.toNat - 48)) 0

/-- What a call `std::stoull(value, &parsed_chars, 10)` does. -/
inductive StoullResult where
  /-- It throws `std::invalid_argument`: no conversion could be performed. -/
  | invalid_argument
  /-- It throws `std::out_of_range`: `strtoull` reported `ERANGE`. -/
  | out_of_range
  /-- It returns `mb_value` and stores the number of characters processed. -/
  | value (mb_value : Nat) (parsed_chars : Nat)
deriving DecidableEq, Repr

/-- The library function `std::stoull(value, &parsed_chars, 10)`, which is not part of
the repository, after its definition through `strtoull` in the C++ and C standards:
leading white space is skipped, an optional `+` or `-` follows, then the longest
sequence of decimal digits.  Without a digit it throws `invalid_argument`; when the
digits exceed `ULLONG_MAX` it throws `out_of_range`; otherwise it returns the value of
the digits, negated in `unsigned long long` under a minus sign, and stores the number of
characters up to the end of the digits. -/
def stoull (value : List Char) : StoullResult :=
  let spaces := value.takeWhile isspace
  let subject := value.dropWhile isspace
  let digits := (strip_sign subject).2.takeWhile Char.isDigit
  if digits.isEmpty then .invalid_argument
  else if ULLONG_MAX < decimal_value digits then .out_of_range
  else
    .value
      (if (strip_sign subject).1 then u64_sub 0 (decimal_value digits)
        else decimal_value digits)
      (spaces.length + (subject.length - (strip_sign subject).2.length) + digits.length)

/-- The message `parse_size_mb` stores in `error`, by the branch that stores it. -/
inductive ParseError where
  /-- "Field ... is empty." -/
  | empty
  /-- "Field ... cannot be negative." -/
  | negative
  /-- "Field ... must be an integer number in MB (example: 8)." -/
  | not_integer
  /-- "Field ... is too large." -/
  | too_large
  /-- "Field ... contains invalid characters: ..." -/
  | invalid_characters
  /-- "Field ... must be greater than 0 MB." -/
  | zero
  /-- "Field ... is too large for this system." -/
  | too_large_for_system
deriving DecidableEq, Repr

/-- The return value of `parse_size_mb` and its two reference parameters after the call. -/
structure ParseResult where
  ok : Bool
  out_bytes : Nat
  error : Option ParseError
deriving DecidableEq, Repr

/-- The function `parse_size_mb`.  `raw_value` is `none` for a null pointer;
`out_bytes` and `error` are the values of the reference parameters at the call
(`error = none` for a string no branch has written).  The parameter `field_name` only
appears in the message and is left out. -/
def parse_size_mb (raw_value : Option (List Char)) (allow_zero : Bool) (out_bytes : Nat)
    (error : Option ParseError) : ParseResult :=
  let value := raw_value.getD []
  if value.isEmpty then ⟨false, out_bytes, some .empty⟩
  else if value.head? = some '-' then ⟨false, out_bytes, some .negative⟩
  else
    match stoull value with
    | .invalid_argument => ⟨false, out_bytes, some .not_integer⟩
    | .out_of_range => ⟨false, out_bytes, some .too_large⟩
    | .value mb_value parsed_chars =>
      if parsed_chars ≠ value.length then ⟨false, out_bytes, some .invalid_characters⟩
      else if !allow_zero && mb_value == 0 then ⟨false, out_bytes, some .zero⟩
      else if mb_value > SIZE_MAX / bytes_per_mb then
        ⟨false, out_bytes, some .too_large_for_system⟩
      else ⟨true, u64_mul mb_value bytes_per_mb, error⟩

/-- Lines 349-361 of `main`: `erase_size` from `argv[2]` (zero allowed only with
`--verify-only`), `skip_size` from `argv[3]` (zero allowed).  `none` stands for
`return EXIT_INVALID_ARGUMENTS`. -/
def parse_sizes (argv2 argv3 : List Char) (verify_only_mode : Bool) : Option (Nat × Nat) :=
  let erase := parse_size_mb (some argv2) verify_only_mode 0 none
  if !erase.ok then none
  else
    let skip := parse_size_mb (some argv3) true 0 erase.error
    if !skip.ok then none
    else some (erase.out_bytes, skip.out_bytes)

/-! ## Comparing runs -/

/-- The state with the log of `write` calls emptied. -/
def EraseState.forget_writes (s : EraseState) : EraseState := { s with writes := [] }

/-- The outcome with the log of `write` calls emptied. -/
def LoopOutcome.forget_writes : LoopOutcome → LoopOutcome
  | .exited s => .exited s.forget_writes
  | .returned code s => .returned code s.forget_writes
  | .pending s => .pending s.forget_writes

/-! ## What a scan should report

The next three definitions are written from the words of the specification, not
from the source: they say what the scan of the first `n` bytes of a target is
expected to report. -/

/-- Number of non-zero bytes among the first `n` bytes of the target. -/
def nonzero_count (content : Nat → Nat) (n : Nat) : Nat :=
  (List.range n).countP (fun i => decide (content i ≠ 0))

/-- Number of zero bytes among the first `n` bytes of the target. -/
def zero_count (content : Nat → Nat) (n : Nat) : Nat :=
  (List.range n).countP (fun i => decide (content i = 0))

/-- Absolute offset of the first non-zero byte among the first `n` bytes, if any. -/
def first_non_zero (content : Nat → Nat) (n : Nat) : Option Nat :=
  (List.range n).find? (fun i => decide (content i ≠ 0))

/-- The statistics of the first `n` bytes of the target: `n` bytes read, the number of
zero and of non-zero bytes among them, the offset of the first non-zero byte or the
sentinel `ULLONG_MAX`. -/
def stats_of (content : Nat → Nat) (n : Nat) : VerificationStats :=
  { bytes_read := n
    zero_bytes := n - nonzero_count content n
    non_zero_bytes := nonzero_count content n
    first_non_zero_offset := (first_non_zero content n).getD ULLONG_MAX }

/-! ## Concrete worlds -/

/-- A world in which nothing fails, every transfer is complete and no signal arrives. -/
def World.quiet : World where
  content := fun _ => 0
  sigint := fun _ => false
  verify_lseek_result := 0
  read_result := fun _ c => c
  read_le := fun _ _ => le_refl _
  lseek_result := fun _ => 0
  write_result := fun _ c => c
  write_le := fun _ _ => le_refl _
  stdin_line := []
  stdin_good := true
  alloc_ok := fun _ => true

/-- The quiet world with one `SIGINT`, delivered just before read number `n` of the flag. -/
def World.cancel_at (n : Nat) : World :=
  { World.quiet with sigint := fun i => decide (i = n) }

/-- The quiet world, except that every `write` transfers at most 3 bytes. -/
def World.short_writes : World :=
  { World.quiet with
    write_result := fun _ c => min (c : Int) 3
    write_le := fun _ _ => min_le_left _ _ }

/-- The quiet world with one non-zero byte, at offset 5, and an operator who answers
with the given line. -/
def World.dirty (answer : List Char) : World :=
  { World.quiet with
    content := fun i => if i = 5 then 1 else 0
    stdin_line := answer }

/-- The quiet world, except that the `lseek` of `verify_target_content` fails. -/
def World.unseekable : World :=
  { World.quiet with verify_lseek_result := -1 }

/-- The world with a non-zero byte at offset 5 in which the `lseek` of
`verify_target_content` fails. -/
def World.dirty_unseekable : World :=
  { World.dirty [] with verify_lseek_result := -1 }

/-- The world with a non-zero byte at offset 5 in which every `read` transfers at most
4 bytes. -/
def World.dirty_short_reads : World :=
  { World.dirty [] with
    read_result := fun _ c => min (c : Int) 4
    read_le := fun _ _ => min_le_left _ _ }

theorem u64_add_of_lt {a b : Nat} (h : a + b < 2 ^ 64) : u64_add a b = a + b := by
  unfold u64_add; omega

theorem u64_sub_of_le {a b : Nat} (h : b ≤ a) (ha : a < 2 ^ 64) : u64_sub a b = a - b := by
  unfold u64_sub; omega

theorem u64_sub_lt (a b : Nat) : u64_sub a b < 2 ^ 64 := by
  unfold u64_sub; omega

theorem u64_add_lt (a b : Nat) : u64_add a b < 2 ^ 64 := by
  unfold u64_add; omega

/-! ## The inner write loop -/

/-- With the fuel the erase step passes, the inner loop never runs out of fuel. -/
theorem write_loop_ne_out_of_fuel (w : World) (bytes_to_write : Nat)
    (hb : bytes_to_write < 2 ^ 64) :
    ∀ (fuel bytes_written : Nat) (writes : List WriteCall),
      bytes_to_write ≤ bytes_written + fuel →
      write_loop w bytes_to_write fuel bytes_written writes ≠ .out_of_fuel := by
  intro fuel
  induction fuel with
  | zero =>
    intro bw ws h
    have : ¬ bw < bytes_to_write := by omega
    simp [write_loop, this]
  | succ n ih =>
    intro bw ws h
    unfold write_loop
    by_cases hlt : bw < bytes_to_write
    · simp only [hlt, if_true]
      have hreq : u64_sub bytes_to_write bw = bytes_to_write - bw :=
        u64_sub_of_le (Nat.le_of_lt hlt) hb
      rw [hreq]
      have hle := w.write_le ws.length (bytes_to_write - bw)
      by_cases h1 : w.write_result ws.length (bytes_to_write - bw) < 0
      · simp [h1]
      · by_cases h2 : w.write_result ws.length (bytes_to_write - bw) = 0
        · simp [h2]
        · simp only [h1, h2, if_false]
          apply ih
          rw [u64_add_of_lt (by omega)]
          omega
    · simp [hlt]

/-- When no `write` fails, the inner loop ends with `bytes_written = bytes_to_write`. -/
theorem write_loop_completes (w : World) (bytes_to_write : Nat)
    (hb : bytes_to_write < 2 ^ 64)
    (hpos : ∀ i c, 0 < c → 0 < w.write_result i c) :
    ∀ (fuel bytes_written : Nat) (writes : List WriteCall),
      bytes_written ≤ bytes_to_write → bytes_to_write ≤ bytes_written + fuel →
      ∃ writes1, write_loop w bytes_to_write fuel bytes_written writes
        = .completed bytes_to_write writes1 := by
  intro fuel
  induction fuel with
  | zero =>
    intro bw ws h1 h2
    have e : bw = bytes_to_write := by omega
    subst e
    exact ⟨ws, by simp [write_loop]⟩
  | succ n ih =>
    intro bw ws h1 h2
    unfold write_loop
    by_cases hlt : bw < bytes_to_write
    · simp only [hlt, if_true]
      have hreq : u64_sub bytes_to_write bw = bytes_to_write - bw :=
        u64_sub_of_le (Nat.le_of_lt hlt) hb
      rw [hreq]
      have hle := w.write_le ws.length (bytes_to_write - bw)
      have hp := hpos ws.length (bytes_to_write - bw) (by omega)
      have h3 : ¬ w.write_result ws.length (bytes_to_write - bw) < 0 := by omega
      have h4 : ¬ w.write_result ws.length (bytes_to_write - bw) = 0 := by omega
      simp only [h3, h4, if_false]
      rw [u64_add_of_lt (by omega)]
      apply ih <;> omega
    · simp only [hlt, if_false]
      have e : bw = bytes_to_write := by omega
      subst e
      exact ⟨ws, rfl⟩

/-- The body of the erase loop never runs out of fuel. -/
theorem erase_step_ne_out_of_fuel (w : World) (device_size erase_size skip_size : Nat)
    (simulate_mode : Bool) (s : EraseState) :
    erase_step w device_size erase_size skip_size simulate_mode s ≠ .out_of_fuel := by
  unfold erase_step
  by_cases hs : w.lseek_result s.seeks.length < 0
  · simp [hs]
  · simp only [hs, if_false]
    cases simulate_mode
    · have hb : min erase_size (u64_sub device_size s.offset) < 2 ^ 64 :=
        lt_of_le_of_lt (Nat.min_le_right _ _) (u64_sub_lt _ _)
      have := write_loop_ne_out_of_fuel w _ hb (min erase_size (u64_sub device_size s.offset))
        0 s.writes (by omega)
      simp only [Bool.false_eq_true, if_false]
      split
      · simp
      · simp
      · contradiction
    · simp

/-- The state after one step in which neither the seek nor a write fails. -/
theorem erase_step_ok (w : World) (device_size erase_size skip_size : Nat)
    (simulate_mode : Bool) (s : EraseState)
    (hseek : 0 ≤ w.lseek_result s.seeks.length)
    (hpos : ∀ i c, 0 < c → 0 < w.write_result i c) :
    ∃ writes1, erase_step w device_size erase_size skip_size simulate_mode s = .next
      { offset := u64_add s.offset (u64_add erase_size skip_size)
        total_erased := u64_add s.total_erased (min erase_size (u64_sub device_size s.offset))
        flag := s.flag
        seeks := s.seeks ++ [s.offset]
        writes := writes1
        steps := s.steps ++ [⟨s.offset, min erase_size (u64_sub device_size s.offset),
          u64_add s.total_erased (min erase_size (u64_sub device_size s.offset)),
          min (u64_add (u64_add s.offset erase_size) skip_size) device_size⟩] } := by
  unfold erase_step
  have hs : ¬ w.lseek_result s.seeks.length < 0 := by omega
  simp only [hs, if_false]
  cases simulate_mode
  · have hb : min erase_size (u64_sub device_size s.offset) < 2 ^ 64 :=
      lt_of_le_of_lt (Nat.min_le_right _ _) (u64_sub_lt _ _)
    obtain ⟨ws, hws⟩ := write_loop_completes w _ hb hpos
      (min erase_size (u64_sub device_size s.offset)) 0 s.writes (by omega) (by omega)
    refine ⟨ws, ?_⟩
    simp only [Bool.false_eq_true, if_false, hws]
  · exact ⟨s.writes, by simp⟩

/-! ## One step of the erase loop, in any world -/

/-- A step that completes leaves `step_result`; in simulation the write log is untouched. -/
theorem erase_step_next (w : World) (device_size erase_size skip_size : Nat)
    (simulate_mode : Bool) (s s2 : EraseState)
    (h : erase_step w device_size erase_size skip_size simulate_mode s = .next s2) :
    0 ≤ w.lseek_result s.seeks.length ∧
    ∃ writes1, s2 = step_result device_size erase_size skip_size s writes1 ∧
      (simulate_mode = true → writes1 = s.writes) ∧
      (simulate_mode = false →
        ∃ bw, write_loop w (min erase_size (u64_sub device_size s.offset))
          (min erase_size (u64_sub device_size s.offset)) 0 s.writes = .completed bw writes1) := by
  unfold erase_step at h
  by_cases hs : w.lseek_result s.seeks.length < 0
  · simp [hs] at h
  · simp only [hs, if_false] at h
    refine ⟨by omega, ?_⟩
    cases simulate_mode
    · simp only [Bool.false_eq_true, if_false] at h
      split at h
      · rename_i bw ws hw
        refine ⟨ws, ?_, by simp, fun _ => ⟨bw, hw⟩⟩
        simp only [StepOutcome.next.injEq] at h
        rw [← h]; rfl
      · simp at h
      · simp at h
    · simp only [if_true, StepOutcome.next.injEq] at h
      exact ⟨s.writes, by rw [← h]; rfl, fun _ => rfl, by simp⟩

/-- A step that returns from `main` does so with `EXIT_SEEK_FAILED`, after a failed
seek and without any write, or with `EXIT_WRITE_FAILED`, after a failed write. -/
theorem erase_step_returned (w : World) (device_size erase_size skip_size : Nat)
    (simulate_mode : Bool) (s s2 : EraseState) (code : Nat)
    (h : erase_step w device_size erase_size skip_size simulate_mode s = .returned code s2) :
    s2.offset = s.offset ∧ s2.total_erased = s.total_erased ∧ s2.flag = s.flag ∧
    s2.seeks = s.seeks ++ [s.offset] ∧ s2.steps = s.steps ∧
    ((code = EXIT_SEEK_FAILED ∧ w.lseek_result s.seeks.length < 0 ∧ s2.writes = s.writes) ∨
     (code = EXIT_WRITE_FAILED ∧ simulate_mode = false ∧
        write_loop w (min erase_size (u64_sub device_size s.offset))
          (min erase_size (u64_sub device_size s.offset)) 0 s.writes = .failed s2.writes)) := by
  unfold erase_step at h
  by_cases hs : w.lseek_result s.seeks.length < 0
  · simp only [hs, if_true, StepOutcome.returned.injEq] at h
    obtain ⟨hc, hs2⟩ := h
    subst hs2
    exact ⟨rfl, rfl, rfl, rfl, rfl, Or.inl ⟨hc.symm, hs, rfl⟩⟩
  · simp only [hs, if_false] at h
    cases simulate_mode
    · simp only [Bool.false_eq_true, if_false] at h
      split at h
      · simp at h
      · rename_i ws hw
        simp only [StepOutcome.returned.injEq] at h
        obtain ⟨hc, hs2⟩ := h
        subst hs2
        exact ⟨rfl, rfl, rfl, rfl, rfl, Or.inr ⟨hc.symm, rfl, hw⟩⟩
      · simp at h
    · simp at h

/-- Any property kept by a completed step (taken with `offset < device_size` and the
flag set) and by reading the flag holds when the loop exits or is still running. -/
theorem erase_loop_invariant (w : World) (device_size erase_size skip_size : Nat)
    (simulate_mode : Bool) (P : EraseState → Prop)
    (hflag : ∀ s f, P s → P { s with flag := f })
    (hstep : ∀ s ws, P s → s.offset < device_size →
      P (step_result device_size erase_size skip_size s ws)) :
    ∀ (fuel : Nat) (s s1 : EraseState), P s →
      (erase_loop w device_size erase_size skip_size simulate_mode fuel s = .exited s1 ∨
       erase_loop w device_size erase_size skip_size simulate_mode fuel s = .pending s1) →
      P s1 := by
  intro fuel
  induction fuel with
  | zero =>
    intro s s1 hP h
    simp only [erase_loop] at h
    rcases h with h | h
    · cases h
    · cases h; exact hP
  | succ n ih =>
    intro s s1 hP h
    rw [erase_loop] at h
    by_cases h0 : s.offset < device_size
    · simp only [h0, if_true] at h
      by_cases hk : (poll w s.flag).keep_running = true
      · simp only [hk, if_true] at h
        cases hst : erase_step w device_size erase_size skip_size simulate_mode
            { s with flag := poll w s.flag } with
        | next s2 =>
          rw [hst] at h
          obtain ⟨_, ws, hs2, _⟩ := erase_step_next _ _ _ _ _ _ _ hst
          refine ih s2 s1 ?_ h
          rw [hs2]
          exact hstep _ ws (hflag s _ hP) h0
        | returned code s2 =>
          rw [hst] at h
          simp at h
        | out_of_fuel => exact absurd hst (erase_step_ne_out_of_fuel _ _ _ _ _ _)
      · simp only [hk, Bool.false_eq_true, if_false] at h
        rcases h with h | h
        · cases h; exact hflag s _ hP
        · cases h
    · simp only [h0, if_false] at h
      rcases h with h | h
      · cases h; exact hP
      · cases h

/-! ## The erase loop without cancellation and without failure -/

/-- Reading the flag when no signal ever arrives. -/
theorem poll_of_no_sigint (w : World) (hsig : ∀ i, w.sigint i = false) (f : Flag) :
    poll w f = ⟨f.keep_running, f.polls + 1⟩ := by
  simp [poll, hsig]

/-- A run of the erase loop, started in any state, that needs `j` more steps: no
signal, no failing seek or write, no wrap-around of the 64-bit offsets. -/
theorem erase_loop_quiet (w : World) (device_size erase_size skip_size : Nat)
    (simulate_mode : Bool)
    (hD : device_size < 2 ^ 64)
    (hnw : device_size + erase_size + skip_size ≤ 2 ^ 64)
    (hsig : ∀ i, w.sigint i = false)
    (hseek : ∀ i, 0 ≤ w.lseek_result i)
    (hpos : ∀ i c, 0 < c → 0 < w.write_result i c) :
    ∀ (j : Nat) (s : EraseState),
      s.flag.keep_running = true →
      s.total_erased ≤ s.offset → s.total_erased ≤ device_size →
      (∀ i, i < j → s.offset + i * (erase_size + skip_size) < device_size) →
      device_size ≤ s.offset + j * (erase_size + skip_size) →
      ∃ s1, erase_loop w device_size erase_size skip_size simulate_mode (j + 1) s = .exited s1 ∧
        s1.flag.keep_running = true ∧
        s1.seeks = s.seeks ++
          (List.range j).map (fun i => s.offset + i * (erase_size + skip_size)) ∧
        s1.steps.map (fun r => (r.offset, r.bytes_to_write)) =
          s.steps.map (fun r => (r.offset, r.bytes_to_write)) ++
          (List.range j).map (fun i => (s.offset + i * (erase_size + skip_size),
            min erase_size (device_size - (s.offset + i * (erase_size + skip_size))))) ∧
        s1.total_erased = s.total_erased +
          ((List.range j).map (fun i =>
            min erase_size (device_size - (s.offset + i * (erase_size + skip_size))))).sum ∧
        s1.total_erased ≤ device_size := by
  intro j
  induction j with
  | zero =>
    intro s hkr _ hted _ hge
    refine ⟨s, ?_, hkr, by simp, by simp, by simp, hted⟩
    have : ¬ s.offset < device_size := by omega
    simp [erase_loop, this]
  | succ j ih =>
    intro s hkr hte hted hlt hge
    have h0 : s.offset < device_size := by simpa using hlt 0 (Nat.succ_pos j)
    obtain ⟨ws, hstep⟩ := erase_step_ok w device_size erase_size skip_size simulate_mode
      { s with flag := poll w s.flag } (hseek _) hpos
    have hsub : u64_sub device_size s.offset = device_size - s.offset :=
      u64_sub_of_le (Nat.le_of_lt h0) (by omega)
    have hoff : u64_add s.offset (u64_add erase_size skip_size)
        = s.offset + (erase_size + skip_size) := by
      rw [u64_add_of_lt (a := erase_size) (by omega), u64_add_of_lt (by omega)]
    have hmin : min erase_size (device_size - s.offset) ≤ erase_size := Nat.min_le_left _ _
    have hmin2 : min erase_size (device_size - s.offset) ≤ device_size - s.offset :=
      Nat.min_le_right _ _
    have hte1 : u64_add s.total_erased (min erase_size (device_size - s.offset))
        = s.total_erased + min erase_size (device_size - s.offset) :=
      u64_add_of_lt (by omega)
    have hk : (poll w s.flag).keep_running = true := by
      simp [poll_of_no_sigint w hsig, hkr]
    dsimp only at hstep
    simp only [hsub, hoff, hte1] at hstep
    obtain ⟨s1, hrun, hkr1, hseeks, hsteps, htot, hle⟩ := ih
      { offset := s.offset + (erase_size + skip_size)
        total_erased := s.total_erased + min erase_size (device_size - s.offset)
        flag := poll w s.flag
        seeks := s.seeks ++ [s.offset]
        writes := ws
        steps := s.steps ++ [⟨s.offset, min erase_size (device_size - s.offset),
          s.total_erased + min erase_size (device_size - s.offset),
          min (u64_add (u64_add s.offset erase_size) skip_size) device_size⟩] }
      hk
      (by simp only; omega) (by simp only; omega)
      (by
        intro i hi
        have := hlt (i + 1) (by omega)
        simp only
        rw [Nat.succ_mul] at this
        omega)
      (by
        simp only
        rw [Nat.succ_mul] at hge
        omega)
    refine ⟨s1, ?_, hkr1, ?_, ?_, ?_, hle⟩
    · rw [erase_loop]
      simp only [h0, if_true, hk, hstep]
      exact hrun
    · rw [hseeks, List.range_succ_eq_map, List.map_cons, List.map_map]
      simp only [List.append_assoc, List.singleton_append, Nat.zero_mul, Nat.add_zero]
      congr 2
      apply List.map_congr_left
      intro i _
      simp only [Function.comp, Nat.succ_mul]
      omega
    · rw [hsteps, List.range_succ_eq_map, List.map_cons, List.map_map]
      simp only [List.map_append, List.map_cons, List.map_nil, List.append_assoc,
        List.singleton_append, Nat.zero_mul, Nat.add_zero]
      congr 2
      apply List.map_congr_left
      intro i _
      simp only [Function.comp, Nat.succ_mul]
      have e : s.offset + (erase_size + skip_size) + i * (erase_size + skip_size)
          = s.offset + (i * (erase_size + skip_size) + (erase_size + skip_size)) := by omega
      rw [e]
    · rw [htot, List.range_succ_eq_map, List.map_cons, List.map_map, List.sum_cons]
      simp only [Nat.zero_mul, Nat.add_zero]
      rw [Nat.add_assoc]
      congr 2
      apply congrArg
      apply List.map_congr_left
      intro i _
      simp only [Function.comp, Nat.succ_mul]
      have e : s.offset + (erase_size + skip_size) + i * (erase_size + skip_size)
          = s.offset + (i * (erase_size + skip_size) + (erase_size + skip_size)) := by omega
      rw [e]

/-- The number of multiples of a positive step below a bound. -/
theorem lt_steps_iff (bound step : Nat) (hstep : 0 < step) (k : Nat) :
    k < (bound + step - 1) / step ↔ k * step < bound := by
  rw [Nat.lt_iff_add_one_le, Nat.le_div_iff_mul_le hstep, Nat.succ_mul]
  omega

/-! ## C1 -/

/-- The whole run of the erase loop without cancellation, failure or wrap-around:
the offsets seeked to and the byte counts of the steps. -/
theorem erase_loop_quiet_run (w : World) (device_size erase_size skip_size : Nat)
    (simulate_mode : Bool) (flag : Flag)
    (hE : 0 < erase_size)
    (hnw : device_size + erase_size + skip_size ≤ 2 ^ 64)
    (hflag : flag.keep_running = true)
    (hsig : ∀ i, w.sigint i = false)
    (hseek : ∀ i, 0 ≤ w.lseek_result i)
    (hpos : ∀ i c, 0 < c → 0 < w.write_result i c) :
    ∃ n s, erase_loop w device_size erase_size skip_size simulate_mode (n + 1)
        (EraseState.initial flag) = .exited s ∧
      (∀ k, k < n ↔ k * (erase_size + skip_size) < device_size) ∧
      s.seeks = (List.range n).map (fun k => k * (erase_size + skip_size)) ∧
      s.steps.map (fun r => (r.offset, r.bytes_to_write)) =
        (List.range n).map (fun k => (k * (erase_size + skip_size),
          min erase_size (device_size - k * (erase_size + skip_size)))) := by
  have hstep : 0 < erase_size + skip_size := by omega
  have hn := lt_steps_iff device_size (erase_size + skip_size) hstep
  obtain ⟨s, hrun, _, hseeks, hsteps, _, _⟩ :=
    erase_loop_quiet w device_size erase_size skip_size simulate_mode (by omega) hnw hsig hseek
      hpos ((device_size + (erase_size + skip_size) - 1) / (erase_size + skip_size))
      (EraseState.initial flag) hflag (by simp [EraseState.initial])
      (by simp [EraseState.initial])
      (by
        intro i hi
        have := (hn i).1 hi
        simpa [EraseState.initial] using this)
      (by
        have := (hn ((device_size + (erase_size + skip_size) - 1) / (erase_size + skip_size)))
        simp only [EraseState.initial, Nat.zero_add]
        by_contra hc
        exact absurd (this.2 (by omega)) (Nat.lt_irrefl _))
  simp only [EraseState.initial, List.nil_append, List.map_nil, Nat.zero_add] at hseeks hsteps
  exact ⟨_, s, hrun, hn, hseeks, hsteps⟩

/-- Where the 64-bit arithmetic of the loop does not wrap the offsets are the expected
ones: when `device_size + erase_size + skip_size` does not exceed `2 ^ 64`,
`erase_size > 0`, cancellation is never signalled and no seek or write fails, the erase
loop exits after seeking exactly to the offsets `k * (erase_size + skip_size)` below
`device_size`, in increasing order; the byte count of the step at each offset is
`min erase_size (device_size - offset)` and `offset + count ≤ device_size`. -/
theorem erase_loop_offsets_and_counts (w : World) (device_size erase_size skip_size : Nat)
    (simulate_mode : Bool) (flag : Flag)
    (hE : 0 < erase_size)
    (hnw : device_size + erase_size + skip_size ≤ 2 ^ 64)
    (hflag : flag.keep_running = true)
    (hsig : ∀ i, w.sigint i = false)
    (hseek : ∀ i, 0 ≤ w.lseek_result i)
    (hpos : ∀ i c, 0 < c → 0 < w.write_result i c) :
    ∃ n s, erase_loop w device_size erase_size skip_size simulate_mode (n + 1)
        (EraseState.initial flag) = .exited s ∧
      (∀ k, k < n ↔ k * (erase_size + skip_size) < device_size) ∧
      s.seeks = (List.range n).map (fun k => k * (erase_size + skip_size)) ∧
      List.Pairwise (fun a b => a < b) s.seeks ∧
      s.steps.map (fun r => (r.offset, r.bytes_to_write)) =
        (List.range n).map (fun k => (k * (erase_size + skip_size),
          min erase_size (device_size - k * (erase_size + skip_size)))) ∧
      (∀ r ∈ s.steps, r.offset + r.bytes_to_write ≤ device_size) := by
  have hstep : 0 < erase_size + skip_size := by omega
  obtain ⟨n, s, hrun, hn, hseeks, hsteps⟩ := erase_loop_quiet_run w device_size erase_size
    skip_size simulate_mode flag hE hnw hflag hsig hseek hpos
  refine ⟨n, s, hrun, hn, hseeks, ?_, hsteps, ?_⟩
  · rw [hseeks, List.pairwise_map]
    refine (List.pairwise_lt_range _).imp ?_
    intro a b hab
    exact Nat.mul_lt_mul_of_pos_right hab hstep
  · intro r hr
    have hmem : (r.offset, r.bytes_to_write) ∈
        s.steps.map (fun r => (r.offset, r.bytes_to_write)) :=
      List.mem_map_of_mem _ hr
    rw [hsteps, List.mem_map] at hmem
    obtain ⟨k, hk, hkeq⟩ := hmem
    have hlt := (hn k).1 (List.mem_range.1 hk)
    simp only [Prod.mk.injEq] at hkeq
    rw [← hkeq.1, ← hkeq.2]
    have := Nat.min_le_right erase_size (device_size - k * (erase_size + skip_size))
    omega

/-- The hypotheses of `erase_loop_offsets_and_counts` hold for a target of 100 bytes,
chunks of 10 bytes and gaps of 10 bytes. -/
theorem erase_loop_offsets_and_counts_witness :
    ∃ n s, erase_loop World.quiet 100 10 10 false (n + 1)
        (EraseState.initial Flag.initial) = .exited s ∧
      (∀ k, k < n ↔ k * (10 + 10) < 100) ∧
      s.seeks = (List.range n).map (fun k => k * (10 + 10)) ∧
      List.Pairwise (fun a b => a < b) s.seeks ∧
      s.steps.map (fun r => (r.offset, r.bytes_to_write)) =
        (List.range n).map (fun k => (k * (10 + 10), min 10 (100 - k * (10 + 10)))) ∧
      (∀ r ∈ s.steps, r.offset + r.bytes_to_write ≤ 100) :=
  erase_loop_offsets_and_counts World.quiet 100 10 10 false Flag.initial (by decide)
    (by norm_num) rfl (fun _ => rfl) (fun _ => le_refl _)
    (fun _ c hc => by simpa [World.quiet] using hc)

/-- When the 64-bit sum `erase_size + skip_size` is 0, a run without cancellation and
without failure never leaves offset 0: whatever the fuel, the loop is still running and
every seek so far went to offset 0. -/
theorem erase_loop_zero_step (w : World) (device_size erase_size skip_size : Nat)
    (simulate_mode : Bool)
    (hD : 0 < device_size)
    (hstep : u64_add erase_size skip_size = 0)
    (hsig : ∀ i, w.sigint i = false)
    (hseek : ∀ i, 0 ≤ w.lseek_result i)
    (hpos : ∀ i c, 0 < c → 0 < w.write_result i c) :
    ∀ (n : Nat) (s : EraseState), s.offset = 0 → s.flag.keep_running = true →
      ∃ s1, erase_loop w device_size erase_size skip_size simulate_mode n s = .pending s1 ∧
        s1.offset = 0 ∧ s1.seeks = s.seeks ++ List.replicate n 0 := by
  intro n
  induction n with
  | zero => intro s h0 _; exact ⟨s, rfl, h0, by simp⟩
  | succ n ih =>
    intro s h0 hkr
    have hlt : s.offset < device_size := by omega
    have hk : (poll w s.flag).keep_running = true := by
      rw [poll_of_no_sigint w hsig]; exact hkr
    obtain ⟨ws, hst⟩ := erase_step_ok w device_size erase_size skip_size simulate_mode
      { s with flag := poll w s.flag } (hseek _) hpos
    obtain ⟨s1, hrun, hoff, hseeks⟩ := ih _
      (show (step_result device_size erase_size skip_size
        { s with flag := poll w s.flag } ws).offset = 0 by
          simp only [step_result, hstep, h0]; rfl)
      (show (step_result device_size erase_size skip_size
        { s with flag := poll w s.flag } ws).flag.keep_running = true from hk)
    refine ⟨s1, ?_, hoff, ?_⟩
    · rw [erase_loop]
      simp only [hlt, if_true, hk, hst]
      exact hrun
    · rw [hseeks]
      simp only [step_result, h0, List.append_assoc, List.singleton_append]
      rw [List.replicate_succ]

/-- C1 fails on the code, where `erase_size + skip_size` wraps.  With `erase_size = 2 ^ 20`
and `skip_size = 2 ^ 64 - 2 ^ 20` (what `parse_size_mb` returns for "1" and
"17592186044415") the 64-bit sum `erase_size + skip_size` is 0.  The loop seeks to
offset 0 a second time, although `1 * (erase_size + skip_size)` is not below
`device_size = 100`, and it goes on doing so: whatever the fuel, the loop has not exited
and all its seeks went to offset 0.  With `erase_size = 2 ^ 21` (argument "2") the
64-bit sum is `2 ^ 20`: on a target of 4 MiB the loop seeks to 0, 1 MiB, 2 MiB and
3 MiB and writes overlapping chunks, although only `k = 0` has
`k * (erase_size + skip_size)` below `device_size`. -/
theorem erase_loop_offsets_wrap_counterexample :
    (erase_loop World.quiet 100 (2 ^ 20) (2 ^ 64 - 2 ^ 20) false 2
        (EraseState.initial Flag.initial)).state.seeks = [0, 0] ∧
      ¬ (1 * (2 ^ 20 + (2 ^ 64 - 2 ^ 20)) < 100) ∧
      (∀ n, ∃ s, erase_loop World.quiet 100 (2 ^ 20) (2 ^ 64 - 2 ^ 20) false n
          (EraseState.initial Flag.initial) = .pending s ∧
        s.seeks = List.replicate n 0) ∧
      parse_sizes "1".toList "17592186044415".toList false =
        some (2 ^ 20, 2 ^ 64 - 2 ^ 20) ∧
      parse_sizes "2".toList "17592186044415".toList false =
        some (2 ^ 21, 2 ^ 64 - 2 ^ 20) ∧
      (∃ s, erase_loop World.quiet 4194304 (2 ^ 21) (2 ^ 64 - 2 ^ 20) false 5
          (EraseState.initial Flag.initial) = .exited s ∧
        s.seeks = [0, 1048576, 2097152, 3145728] ∧
        s.steps.map (fun r => r.bytes_to_write) = [2097152, 2097152, 2097152, 1048576]) ∧
      ¬ (1 * (2 ^ 21 + (2 ^ 64 - 2 ^ 20)) < 4194304) := by
  refine ⟨by decide, by decide, ?_, by decide, by decide,
    ⟨(erase_loop World.quiet 4194304 (2 ^ 21) (2 ^ 64 - 2 ^ 20) false 5
      (EraseState.initial Flag.initial)).state, by decide, by decide, by decide⟩,
    by decide⟩
  intro n
  obtain ⟨s, hrun, _, hseeks⟩ := erase_loop_zero_step World.quiet 100 (2 ^ 20)
    (2 ^ 64 - 2 ^ 20) false (by decide) (by decide) (fun _ => rfl) (fun _ => le_refl _)
    (fun _ c hc => by
      show 0 < (c : Int)
      omega) n (EraseState.initial Flag.initial) rfl rfl
  exact ⟨s, hrun, by simpa [EraseState.initial] using hseeks⟩

/-! ## C2 -/

/-- The counter `total_erased` is the 64-bit sum of the byte counts of the steps taken,
in any world, whenever the loop exits or is still running. -/
theorem erase_loop_total_erased_mod (w : World) (device_size erase_size skip_size : Nat)
    (simulate_mode : Bool) (hD : device_size < 2 ^ 64) (flag : Flag) (fuel : Nat)
    (s : EraseState)
    (h : erase_loop w device_size erase_size skip_size simulate_mode fuel
        (EraseState.initial flag) = .exited s ∨
      erase_loop w device_size erase_size skip_size simulate_mode fuel
        (EraseState.initial flag) = .pending s) :
    s.total_erased =
        (s.seeks.map (fun off => min erase_size (device_size - off))).sum % 2 ^ 64 ∧
      s.seeks = s.steps.map (fun r => r.offset) ∧
      s.steps.map (fun r => r.bytes_to_write) =
        s.seeks.map (fun off => min erase_size (device_size - off)) := by
  refine erase_loop_invariant w device_size erase_size skip_size simulate_mode
    (fun s => s.total_erased =
        (s.seeks.map (fun off => min erase_size (device_size - off))).sum % 2 ^ 64 ∧
      s.seeks = s.steps.map (fun r => r.offset) ∧
      s.steps.map (fun r => r.bytes_to_write) =
        s.seeks.map (fun off => min erase_size (device_size - off)))
    (fun s f hP => hP) ?_ fuel (EraseState.initial flag) s (by simp [EraseState.initial]) h
  intro s ws ⟨h1, h2, h3⟩ h0
  have hsub : u64_sub device_size s.offset = device_size - s.offset :=
    u64_sub_of_le (Nat.le_of_lt h0) hD
  simp only [step_result, hsub, List.map_append, List.map_cons, List.map_nil, List.sum_append,
    List.sum_cons, List.sum_nil, Nat.add_zero, h2, h3]
  refine ⟨?_, trivial, trivial⟩
  rw [h1, h2]
  unfold u64_add
  omega

/-- Without wrap-around (`device_size + erase_size + skip_size ≤ 2 ^ 64`) the counter
`total_erased` is the exact sum of the byte counts and never exceeds `device_size`,
in any world, whenever the loop exits or is still running. -/
theorem erase_loop_total_erased_exact (w : World) (device_size erase_size skip_size : Nat)
    (simulate_mode : Bool) (hD : device_size < 2 ^ 64)
    (hnw : device_size + erase_size + skip_size ≤ 2 ^ 64) (flag : Flag) (fuel : Nat)
    (s : EraseState)
    (h : erase_loop w device_size erase_size skip_size simulate_mode fuel
        (EraseState.initial flag) = .exited s ∨
      erase_loop w device_size erase_size skip_size simulate_mode fuel
        (EraseState.initial flag) = .pending s) :
    s.total_erased = (s.seeks.map (fun off => min erase_size (device_size - off))).sum ∧
      s.total_erased ≤ device_size := by
  have key := erase_loop_invariant w device_size erase_size skip_size simulate_mode
    (fun s => s.total_erased =
        (s.seeks.map (fun off => min erase_size (device_size - off))).sum ∧
      s.total_erased ≤ device_size ∧ s.total_erased ≤ s.offset)
    (fun s f hP => hP) ?_ fuel (EraseState.initial flag) s (by simp [EraseState.initial]) h
  · exact ⟨key.1, key.2.1⟩
  · intro s ws ⟨h1, h2, h3⟩ h0
    have hsub : u64_sub device_size s.offset = device_size - s.offset :=
      u64_sub_of_le (Nat.le_of_lt h0) hD
    have hmin : min erase_size (device_size - s.offset) ≤ erase_size := Nat.min_le_left _ _
    have hmin2 : min erase_size (device_size - s.offset) ≤ device_size - s.offset :=
      Nat.min_le_right _ _
    have hoff : u64_add s.offset (u64_add erase_size skip_size)
        = s.offset + (erase_size + skip_size) := by
      rw [u64_add_of_lt (a := erase_size) (by omega), u64_add_of_lt (by omega)]
    have hte : u64_add s.total_erased (min erase_size (device_size - s.offset))
        = s.total_erased + min erase_size (device_size - s.offset) :=
      u64_add_of_lt (by omega)
    simp only [step_result, hsub, hoff, hte, List.map_append, List.map_cons, List.map_nil,
      List.sum_append, List.sum_cons, List.sum_nil, Nat.add_zero]
    refine ⟨by rw [h1], by omega, by omega⟩

/-- What the code does satisfy of the sum of the byte counts, in a run without
cancellation and without failing seek or write: at loop exit the 64-bit counter
`total_erased` equals the sum over the visited offsets of
`min erase_size (device_size - offset)` reduced modulo `2 ^ 64`; when `erase_size > 0`
and `device_size + erase_size + skip_size ≤ 2 ^ 64` the loop does exit and the equality
is exact, with `total_erased ≤ device_size`.  For 100/10/10 the loop exits after the 5
steps at 0, 20, 40, 60, 80 of 10 bytes each with `total_erased = 50`; for 100/30/0 after
the steps at 0, 30, 60, 90, the last of 10 bytes, with `total_erased = 100`. -/
theorem erase_loop_total_erased (w : World) (device_size erase_size skip_size : Nat)
    (simulate_mode : Bool) (flag : Flag)
    (hD : device_size < 2 ^ 64)
    (hflag : flag.keep_running = true)
    (hsig : ∀ i, w.sigint i = false)
    (hseek : ∀ i, 0 ≤ w.lseek_result i)
    (hpos : ∀ i c, 0 < c → 0 < w.write_result i c) :
    (∀ fuel s, erase_loop w device_size erase_size skip_size simulate_mode fuel
        (EraseState.initial flag) = .exited s →
      s.total_erased =
        (s.seeks.map (fun off => min erase_size (device_size - off))).sum % 2 ^ 64) ∧
    (0 < erase_size → device_size + erase_size + skip_size ≤ 2 ^ 64 →
      ∃ n s, erase_loop w device_size erase_size skip_size simulate_mode (n + 1)
          (EraseState.initial flag) = .exited s ∧
        s.total_erased = (s.seeks.map (fun off => min erase_size (device_size - off))).sum ∧
        s.total_erased ≤ device_size) ∧
    (∃ s, erase_loop w 100 10 10 simulate_mode 6 (EraseState.initial flag) = .exited s ∧
      s.seeks = [0, 20, 40, 60, 80] ∧
      s.steps.map (fun r => r.bytes_to_write) = [10, 10, 10, 10, 10] ∧
      s.total_erased = 50) ∧
    (∃ s, erase_loop w 100 30 0 simulate_mode 5 (EraseState.initial flag) = .exited s ∧
      s.seeks = [0, 30, 60, 90] ∧
      s.steps.map (fun r => r.bytes_to_write) = [30, 30, 30, 10] ∧
      s.total_erased = 100) := by
  refine ⟨?_, ?_, ?_, ?_⟩
  · intro fuel s h
    exact (erase_loop_total_erased_mod w device_size erase_size skip_size simulate_mode hD
      flag fuel s (Or.inl h)).1
  · intro hE hnw
    obtain ⟨n, s, hrun, _⟩ := erase_loop_quiet_run w device_size erase_size skip_size
      simulate_mode flag hE hnw hflag hsig hseek hpos
    exact ⟨n, s, hrun, erase_loop_total_erased_exact w device_size erase_size skip_size
      simulate_mode hD hnw flag (n + 1) s (Or.inl hrun)⟩
  · obtain ⟨s, hrun, _, hseeks, hsteps, htot, _⟩ :=
      erase_loop_quiet w 100 10 10 simulate_mode (by norm_num) (by norm_num) hsig hseek hpos 5
        (EraseState.initial flag) hflag (by simp [EraseState.initial])
        (by simp [EraseState.initial])
        (by intro i hi; simp only [EraseState.initial]; omega)
        (by simp [EraseState.initial])
    refine ⟨s, hrun, ?_, ?_, ?_⟩
    · rw [hseeks]; simp [EraseState.initial, List.range_succ]
    · have := congrArg (List.map Prod.snd) hsteps
      simpa [EraseState.initial, List.range_succ, Function.comp_def] using this
    · rw [htot]; simp [EraseState.initial, List.range_succ]
  · obtain ⟨s, hrun, _, hseeks, hsteps, htot, _⟩ :=
      erase_loop_quiet w 100 30 0 simulate_mode (by norm_num) (by norm_num) hsig hseek hpos 4
        (EraseState.initial flag) hflag (by simp [EraseState.initial])
        (by simp [EraseState.initial])
        (by intro i hi; simp only [EraseState.initial]; omega)
        (by simp [EraseState.initial])
    refine ⟨s, hrun, ?_, ?_, ?_⟩
    · rw [hseeks]; simp [EraseState.initial, List.range_succ]
    · have := congrArg (List.map Prod.snd) hsteps
      simpa [EraseState.initial, List.range_succ, Function.comp_def] using this
    · rw [htot]; simp [EraseState.initial, List.range_succ]

/-- The hypotheses of `erase_loop_total_erased` hold in the quiet world. -/
theorem erase_loop_total_erased_witness :
    (∃ s, erase_loop World.quiet 100 10 10 false 6 (EraseState.initial Flag.initial)
        = .exited s ∧
      s.seeks = [0, 20, 40, 60, 80] ∧
      s.steps.map (fun r => r.bytes_to_write) = [10, 10, 10, 10, 10] ∧
      s.total_erased = 50) ∧
    (∃ s, erase_loop World.quiet 100 30 0 false 5 (EraseState.initial Flag.initial)
        = .exited s ∧
      s.seeks = [0, 30, 60, 90] ∧
      s.steps.map (fun r => r.bytes_to_write) = [30, 30, 30, 10] ∧
      s.total_erased = 100) :=
  (erase_loop_total_erased World.quiet 100 10 10 false Flag.initial (by norm_num) rfl
    (fun _ => rfl) (fun _ => le_refl _) (fun _ c hc => by simpa [World.quiet] using hc)).2.2

/-- C2 fails on the code, where `erase_size + skip_size` wraps.  For
`device_size = 2 ^ 63 - 1`, `erase_size = 2 ^ 63` and `skip_size = 2 ^ 63 + 2 ^ 60` (what
`parse_size_mb` returns for "8796093022208" and "9895604649984") the 64-bit step is
`2 ^ 60`, smaller than the chunk; the simulated run exits after 8 steps with
`total_erased = 2 ^ 62 - 8`, while the byte counts of the 8 steps add up to
`41505174165846491128`. -/
theorem erase_loop_total_erased_wrap_counterexample :
    (∃ s, erase_loop World.quiet (2 ^ 63 - 1) (2 ^ 63) (2 ^ 63 + 2 ^ 60) true 9
        (EraseState.initial Flag.initial) = .exited s ∧
      s.seeks.length = 8 ∧
      s.total_erased = 2 ^ 62 - 8 ∧
      (s.seeks.map (fun off => min (2 ^ 63) (2 ^ 63 - 1 - off))).sum = 41505174165846491128 ∧
      s.total_erased ≠ (s.seeks.map (fun off => min (2 ^ 63) (2 ^ 63 - 1 - off))).sum) ∧
    parse_sizes "8796093022208".toList "9895604649984".toList false =
      some (2 ^ 63, 2 ^ 63 + 2 ^ 60) ∧
    u64_add (2 ^ 63) (2 ^ 63 + 2 ^ 60) = 2 ^ 60 :=
  ⟨⟨(erase_loop World.quiet (2 ^ 63 - 1) (2 ^ 63) (2 ^ 63 + 2 ^ 60) true 9
      (EraseState.initial Flag.initial)).state, by decide, by decide, by decide, by decide,
    by decide⟩, by decide, by decide⟩

/-! ## C3 -/

/-- Once `keep_running` is false it stays false: the handler only clears it. -/
theorem poll_keep_running_false (w : World) (f : Flag) (h : f.keep_running = false) :
    (poll w f).keep_running = false := by
  simp [poll, handle_signal, h]

/-- Running with fuel `a + b` is running with fuel `a` and, when the loop is then
still running, going on with fuel `b`. -/
theorem erase_loop_add (w : World) (device_size erase_size skip_size : Nat)
    (simulate_mode : Bool) (b : Nat) :
    ∀ (a : Nat) (s : EraseState),
      erase_loop w device_size erase_size skip_size simulate_mode (a + b) s =
        match erase_loop w device_size erase_size skip_size simulate_mode a s with
        | .pending s1 => erase_loop w device_size erase_size skip_size simulate_mode b s1
        | o => o := by
  intro a
  induction a with
  | zero => intro s; simp [erase_loop]
  | succ a ih =>
    intro s
    rw [Nat.add_right_comm, erase_loop, erase_loop]
    by_cases h0 : s.offset < device_size
    · simp only [h0, if_true]
      by_cases hk : (poll w s.flag).keep_running = true
      · simp only [hk, if_true]
        cases hst : erase_step w device_size erase_size skip_size simulate_mode
            { s with flag := poll w s.flag } with
        | next s2 => simp only [ih]
        | returned code s2 => rfl
        | out_of_fuel => exact absurd hst (erase_step_ne_out_of_fuel _ _ _ _ _ _)
      · simp [hk]
    · simp [h0]

/-- When the fuel `n` runs out with the loop still running, exactly `n` steps were
completed: each of the `n` loop conditions held, with one seek and one step record each. -/
theorem erase_loop_pending_steps (w : World) (device_size erase_size skip_size : Nat)
    (simulate_mode : Bool) :
    ∀ (n : Nat) (s s1 : EraseState),
      erase_loop w device_size erase_size skip_size simulate_mode n s = .pending s1 →
      s1.steps.length = s.steps.length + n ∧ s1.seeks.length = s.seeks.length + n := by
  intro n
  induction n with
  | zero =>
    intro s s1 h
    simp only [erase_loop, LoopOutcome.pending.injEq] at h
    subst h; simp
  | succ n ih =>
    intro s s1 h
    rw [erase_loop] at h
    by_cases h0 : s.offset < device_size
    · simp only [h0, if_true] at h
      by_cases hk : (poll w s.flag).keep_running = true
      · simp only [hk, if_true] at h
        cases hst : erase_step w device_size erase_size skip_size simulate_mode
            { s with flag := poll w s.flag } with
        | next s2 =>
          rw [hst] at h
          obtain ⟨_, ws, hs2, _⟩ := erase_step_next _ _ _ _ _ _ _ hst
          have := ih s2 s1 h
          rw [hs2] at this
          simp only [step_result, List.length_append, List.length_cons, List.length_nil] at this
          omega
        | returned code s2 => rw [hst] at h; simp at h
        | out_of_fuel => exact absurd hst (erase_step_ne_out_of_fuel _ _ _ _ _ _)
      · simp [hk] at h
    · simp [h0] at h

/-- What the code does satisfy after a cancellation.  Let the buffer be allocated (or
the run be simulated), let `n` steps of the erase loop have been completed (the loop is
still running in state `s`), and let the next loop condition find `offset < device_size`
and read `keep_running` as false.  Then exactly `n` seeks and steps were made, with
whatever larger fuel the loop exits in the state `s` (no further seek, write or step),
`main` reports the run as interrupted (`completed = some false`), and the 64-bit
counter `total_erased` is the sum of the byte counts
`min erase_size (device_size - offset)` of the `n` steps reduced modulo `2 ^ 64`,
exactly that sum when `device_size + erase_size + skip_size ≤ 2 ^ 64`. -/
theorem main_erase_cancelled (w : World) (c : Config) (flag : Flag)
    (verify : Option VerifyResult) (gate : Option Bool) (n : Nat) (s : EraseState)
    (hD : c.device_size < 2 ^ 64)
    (hstart : (poll w (countdown w flag)).keep_running = true)
    (halloc : c.simulate_mode = true ∨ w.alloc_ok c.erase_size = true)
    (hrun : erase_loop w c.device_size c.erase_size c.skip_size c.simulate_mode n
      (EraseState.initial (poll w (countdown w flag))) = .pending s)
    (hoff : s.offset < c.device_size)
    (hcancel : (poll w s.flag).keep_running = false) :
    s.seeks.length = n ∧ s.steps.length = n ∧
    (∀ fuel, n < fuel →
      erase_loop w c.device_size c.erase_size c.skip_size c.simulate_mode fuel
        (EraseState.initial (poll w (countdown w flag))) =
          .exited { s with flag := poll w s.flag } ∧
      main_erase w c fuel flag verify gate =
        some ⟨EXIT_OK, verify, gate, some { s with flag := poll w (poll w s.flag) },
          some false⟩) ∧
    s.steps.map (fun r => r.bytes_to_write) =
      s.seeks.map (fun off => min c.erase_size (c.device_size - off)) ∧
    s.total_erased = (s.steps.map (fun r => r.bytes_to_write)).sum % 2 ^ 64 ∧
    (c.device_size + c.erase_size + c.skip_size ≤ 2 ^ 64 →
      s.total_erased = (s.steps.map (fun r => r.bytes_to_write)).sum) := by
  have hlen := erase_loop_pending_steps w _ _ _ _ n _ s hrun
  simp only [EraseState.initial, List.length_nil, Nat.zero_add] at hlen
  have hmod := erase_loop_total_erased_mod w c.device_size c.erase_size c.skip_size
    c.simulate_mode hD _ n s (Or.inr hrun)
  have hexit : ∀ fuel, n < fuel →
      erase_loop w c.device_size c.erase_size c.skip_size c.simulate_mode fuel
        (EraseState.initial (poll w (countdown w flag))) =
          .exited { s with flag := poll w s.flag } := by
    intro fuel hf
    obtain ⟨m, rfl⟩ : ∃ m, fuel = n + (m + 1) := ⟨fuel - n - 1, by omega⟩
    rw [erase_loop_add, hrun]
    simp only
    rw [erase_loop]
    simp [hoff, hcancel]
  refine ⟨hlen.2, hlen.1, ?_, hmod.2.2, ?_, ?_⟩
  · intro fuel hf
    refine ⟨hexit fuel hf, ?_⟩
    have ha : (!c.simulate_mode && !w.alloc_ok c.erase_size) = false := by
      rcases halloc with h | h <;> simp [h]
    unfold main_erase
    simp only [hstart, ha, Bool.not_true, Bool.false_eq_true, if_false, hexit fuel hf,
      poll_keep_running_false w _ hcancel]
  · rw [hmod.2.2]; exact hmod.1
  · intro hnw
    rw [hmod.2.2]
    exact (erase_loop_total_erased_exact w c.device_size c.erase_size c.skip_size
      c.simulate_mode hD hnw _ n s (Or.inr hrun)).1

/-- The hypotheses of `main_erase_cancelled` hold for a target of 100 bytes, chunks and
gaps of 10 bytes and a `SIGINT` after the second step (the countdown and the check after
it read the flag 6 times, the two steps read it twice more). -/
theorem main_erase_cancelled_witness :
    erase_loop (World.cancel_at 8) 100 10 10 false 3
        (EraseState.initial (poll (World.cancel_at 8) (countdown (World.cancel_at 8)
          Flag.initial))) =
      .exited ⟨40, 20, ⟨false, 9⟩, [0, 20], [⟨0, 10, 10⟩, ⟨0, 10, 10⟩],
        [⟨0, 10, 10, 20⟩, ⟨20, 10, 20, 40⟩]⟩ ∧
    main_erase (World.cancel_at 8) ⟨false, false, false, 100, 10, 10⟩ 3 Flag.initial none none =
      some ⟨EXIT_OK, none, none,
        some ⟨40, 20, ⟨false, 10⟩, [0, 20], [⟨0, 10, 10⟩, ⟨0, 10, 10⟩],
          [⟨0, 10, 10, 20⟩, ⟨20, 10, 20, 40⟩]⟩, some false⟩ :=
  (main_erase_cancelled (World.cancel_at 8) ⟨false, false, false, 100, 10, 10⟩ Flag.initial
    none none 2
    ⟨40, 20, ⟨true, 8⟩, [0, 20], [⟨0, 10, 10⟩, ⟨0, 10, 10⟩],
      [⟨0, 10, 10, 20⟩, ⟨20, 10, 20, 40⟩]⟩
    (by norm_num) (by decide) (Or.inr rfl) (by decide) (by decide)
    (by decide)).2.2.1 3 (by decide)

/-- C3 fails on the code, where `erase_size + skip_size` wraps.  For
`device_size = 2 ^ 63 - 1`, `erase_size = 2 ^ 63`, `skip_size = 2 ^ 63 + 2 ^ 60` (what
`parse_size_mb` returns for "8796093022208" and "9895604649984") and a `SIGINT` between
the steps 3 and 4 of a simulated run, the loop exits after step 3 with
`total_erased = 5764607523034234877`, while the byte counts of the steps 1 to 3 add up
to `24211351596743786493`. -/
theorem erase_loop_cancelled_wrap_counterexample :
    (∃ s, erase_loop (World.cancel_at 3) (2 ^ 63 - 1) (2 ^ 63) (2 ^ 63 + 2 ^ 60) true 3
        (EraseState.initial Flag.initial) = .pending s ∧
      s.offset < 2 ^ 63 - 1 ∧
      (poll (World.cancel_at 3) s.flag).keep_running = false ∧
      erase_loop (World.cancel_at 3) (2 ^ 63 - 1) (2 ^ 63) (2 ^ 63 + 2 ^ 60) true 4
        (EraseState.initial Flag.initial) =
          .exited { s with flag := poll (World.cancel_at 3) s.flag } ∧
      s.total_erased = 5764607523034234877 ∧
      (s.steps.map (fun r => r.bytes_to_write)).sum = 24211351596743786493) ∧
    parse_sizes "8796093022208".toList "9895604649984".toList true =
      some (2 ^ 63, 2 ^ 63 + 2 ^ 60) :=
  ⟨⟨(erase_loop (World.cancel_at 3) (2 ^ 63 - 1) (2 ^ 63) (2 ^ 63 + 2 ^ 60) true 3
      (EraseState.initial Flag.initial)).state, by decide, by decide, by decide, by decide,
    by decide, by decide⟩, by decide⟩

/-! ## C4 -/

/-- The simulated run is the real run with the write log emptied, from any state. -/
theorem erase_loop_simulate_forget (w : World) (device_size erase_size skip_size : Nat)
    (hpos : ∀ i c, 0 < c → 0 < w.write_result i c) :
    ∀ (fuel : Nat) (s : EraseState),
      erase_loop w device_size erase_size skip_size true fuel s.forget_writes =
        (erase_loop w device_size erase_size skip_size false fuel s).forget_writes := by
  intro fuel
  induction fuel with
  | zero => intro s; simp [erase_loop, LoopOutcome.forget_writes]
  | succ n ih =>
    intro s
    rw [erase_loop, erase_loop]
    by_cases h0 : s.offset < device_size
    · have h0f : s.forget_writes.offset < device_size := h0
      simp only [h0, h0f, if_true]
      by_cases hk : (poll w s.flag).keep_running = true
      · have hkf : (poll w s.forget_writes.flag).keep_running = true := hk
        simp only [hk, hkf, if_true]
        by_cases hs : w.lseek_result s.seeks.length < 0
        · have e1 : erase_step w device_size erase_size skip_size true
              { s.forget_writes with flag := poll w s.forget_writes.flag } =
              .returned EXIT_SEEK_FAILED
                { s.forget_writes with
                  flag := poll w s.flag, seeks := s.seeks ++ [s.offset] } := by
            simp [erase_step, EraseState.forget_writes, hs]
          have e2 : erase_step w device_size erase_size skip_size false
              { s with flag := poll w s.flag } =
              .returned EXIT_SEEK_FAILED
                { s with flag := poll w s.flag, seeks := s.seeks ++ [s.offset] } := by
            simp [erase_step, hs]
          rw [e1, e2]
          simp [LoopOutcome.forget_writes, EraseState.forget_writes]
        · have hs1 : 0 ≤ w.lseek_result s.seeks.length := by omega
          obtain ⟨ws, e2⟩ := erase_step_ok w device_size erase_size skip_size false
            { s with flag := poll w s.flag } hs1 hpos
          have e1 : erase_step w device_size erase_size skip_size true
              { s.forget_writes with flag := poll w s.forget_writes.flag } =
              .next (step_result device_size erase_size skip_size
                { s with flag := poll w s.flag } ws).forget_writes := by
            simp [erase_step, EraseState.forget_writes, hs, step_result]
          rw [e1, e2]
          exact ih _
      · have hkf : ¬ (poll w s.forget_writes.flag).keep_running = true := hk
        simp only [hk, hkf, if_false]
        simp [LoopOutcome.forget_writes, EraseState.forget_writes]
    · have h0f : ¬ s.forget_writes.offset < device_size := h0
      simp only [h0, h0f, if_false]
      simp [LoopOutcome.forget_writes]

/-- C4: for every target size, chunk size, skip size, cancellation schedule and seek
results, when every `write` succeeds the run with `simulate_mode = true` issues no write
call and ends the way the run with `simulate_mode = false` does (loop exited, returned
with the same code, or still running after the same number of steps), with the same
sequence of step values (offset, bytes_to_write, total_erased, processed_bytes), the same
seeks, the same `offset`, `total_erased` and flag. -/
theorem erase_loop_simulate_eq_real (w : World) (device_size erase_size skip_size : Nat)
    (flag : Flag) (fuel : Nat)
    (hpos : ∀ i c, 0 < c → 0 < w.write_result i c) :
    erase_loop w device_size erase_size skip_size true fuel (EraseState.initial flag) =
      (erase_loop w device_size erase_size skip_size false fuel
        (EraseState.initial flag)).forget_writes ∧
    (erase_loop w device_size erase_size skip_size true fuel
        (EraseState.initial flag)).state.writes = [] ∧
    (erase_loop w device_size erase_size skip_size true fuel
        (EraseState.initial flag)).state.steps =
      (erase_loop w device_size erase_size skip_size false fuel
        (EraseState.initial flag)).state.steps ∧
    (erase_loop w device_size erase_size skip_size true fuel
        (EraseState.initial flag)).state.seeks =
      (erase_loop w device_size erase_size skip_size false fuel
        (EraseState.initial flag)).state.seeks := by
  have h := erase_loop_simulate_forget w device_size erase_size skip_size hpos fuel
    (EraseState.initial flag)
  have hi : (EraseState.initial flag).forget_writes = EraseState.initial flag := rfl
  rw [hi] at h
  rw [h]
  cases erase_loop w device_size erase_size skip_size false fuel (EraseState.initial flag) <;>
    simp [LoopOutcome.forget_writes, LoopOutcome.state, EraseState.forget_writes]

/-- The hypothesis of `erase_loop_simulate_eq_real` holds in a world whose writes are
short (at most 3 bytes per call) but never fail; there the real run needs 4 writes for
each chunk of 10 bytes. -/
theorem erase_loop_simulate_eq_real_witness :
    (erase_loop World.short_writes 100 10 10 true 6 (EraseState.initial Flag.initial) =
      (erase_loop World.short_writes 100 10 10 false 6
        (EraseState.initial Flag.initial)).forget_writes ∧
    (erase_loop World.short_writes 100 10 10 true 6
        (EraseState.initial Flag.initial)).state.writes = [] ∧
    (erase_loop World.short_writes 100 10 10 true 6
        (EraseState.initial Flag.initial)).state.steps =
      (erase_loop World.short_writes 100 10 10 false 6
        (EraseState.initial Flag.initial)).state.steps ∧
    (erase_loop World.short_writes 100 10 10 true 6
        (EraseState.initial Flag.initial)).state.seeks =
      (erase_loop World.short_writes 100 10 10 false 6
        (EraseState.initial Flag.initial)).state.seeks) ∧
    (erase_loop World.short_writes 100 10 10 false 6
        (EraseState.initial Flag.initial)).state.writes.length = 20 :=
  ⟨erase_loop_simulate_eq_real World.short_writes 100 10 10 Flag.initial 6
    (fun _ c hc => by
      show 0 < min (c : Int) 3
      omega), by decide⟩

/-! ## C5 -/

/-- The part of `main` from the countdown on hands the scan and the answer of the gate
through unchanged. -/
theorem main_erase_gate (w : World) (c : Config) (fuel : Nat) (flag : Flag)
    (verify : Option VerifyResult) (gate : Option Bool) (res : MainResult)
    (h : main_erase w c fuel flag verify gate = some res) :
    res.verify = verify ∧ res.gate = gate := by
  unfold main_erase at h
  by_cases hk : (poll w (countdown w flag)).keep_running = true
  · simp only [hk, Bool.not_true, Bool.false_eq_true, if_false] at h
    by_cases ha : (!c.simulate_mode && !w.alloc_ok c.erase_size) = true
    · rw [if_pos ha] at h
      simp only [Option.some.injEq] at h; subst h; exact ⟨rfl, rfl⟩
    · rw [if_neg ha] at h
      cases hl : erase_loop w c.device_size c.erase_size c.skip_size c.simulate_mode fuel
          (EraseState.initial (poll w (countdown w flag))) with
      | exited s => rw [hl] at h; simp only [Option.some.injEq] at h; subst h; exact ⟨rfl, rfl⟩
      | returned code s =>
        rw [hl] at h; simp only [Option.some.injEq] at h; subst h; exact ⟨rfl, rfl⟩
      | pending s => rw [hl] at h; simp at h
  · simp only [hk, Bool.not_false, if_true, Option.some.injEq] at h
    subst h; exact ⟨rfl, rfl⟩

/-- C6: in the verify-before-erase path of `main` (`verify_zero_mode`), when the
early-exit scan returned true with a non-zero byte found: if `ask_user_to_continue`
returns false, `main` returns `EXIT_USER_ABORTED` and the erase loop is never entered
(no seek and no write of the erase engine); whenever the erase loop is entered,
`ask_user_to_continue` returned true; and when it returns true `main` goes on with
the countdown and the erase loop. -/
theorem main_gate (w : World) (c : Config) (fuel : Nat) (r : VerifyResult)
    (hzero : c.verify_zero_mode = true) (honly : c.verify_only_mode = false)
    (hscan : verify_target_content w c.device_size true Flag.initial fuel = some r)
    (hok : r.ok = true)
    (hfound : r.stats.first_non_zero_offset ≠ ULLONG_MAX) :
    (ask_user_to_continue w = false →
      main w c fuel = some ⟨EXIT_USER_ABORTED, some r, some false, none, none⟩) ∧
    (∀ res s, main w c fuel = some res → res.erase = some s →
      ask_user_to_continue w = true ∧ res.gate = some true) ∧
    (ask_user_to_continue w = true →
      main w c fuel = main_erase w c fuel r.flag (some r) (some true)) := by
  have hmain : main w c fuel =
      if !ask_user_to_continue w then
        some ⟨EXIT_USER_ABORTED, some r, some false, none, none⟩
      else main_erase w c fuel r.flag (some r) (some true) := by
    unfold main
    simp only [honly, hzero, hscan, hok, Bool.false_eq_true, if_false, if_true, Bool.not_true,
      ne_eq, hfound, not_false_eq_true]
  refine ⟨?_, ?_, ?_⟩
  · intro hno
    rw [hmain]; simp [hno]
  · intro res s hres herase
    rw [hmain] at hres
    cases hask : ask_user_to_continue w
    · simp only [hask, Bool.not_false, if_true, Option.some.injEq] at hres
      subst hres
      simp at herase
    · simp only [hask, Bool.not_true, Bool.false_eq_true, if_false] at hres
      exact ⟨rfl, (main_erase_gate w c fuel r.flag _ _ res hres).2⟩
  · intro hyes
    rw [hmain]; simp [hyes]

/-- The hypotheses of `main_gate` hold for a target of 10 bytes with a non-zero byte at
offset 5: when the operator answers "n", `main` returns `EXIT_USER_ABORTED` without
entering the erase loop. -/
theorem main_gate_witness :
    ask_user_to_continue (World.dirty ['n']) = false ∧
    main (World.dirty ['n']) ⟨false, true, false, 10, 4, 0⟩ 11 =
      some ⟨EXIT_USER_ABORTED, some ⟨true, ⟨6, 5, 1, 5⟩, ⟨true, 1⟩, 1, []⟩, some false,
        none, none⟩ :=
  ⟨by decide,
   (main_gate (World.dirty ['n']) ⟨false, true, false, 10, 4, 0⟩ 11
      ⟨true, ⟨6, 5, 1, 5⟩, ⟨true, 1⟩, 1, []⟩ rfl rfl (by decide) rfl (by decide)).1
      (by decide)⟩

/-! ## The scanner: counting and finding non-zero bytes -/

theorem nonzero_count_succ (content : Nat → Nat) (n : Nat) :
    nonzero_count content (n + 1) =
      nonzero_count content n + (if content n ≠ 0 then 1 else 0) := by
  unfold nonzero_count
  rw [List.range_succ, List.countP_append]
  by_cases h : content n = 0 <;> simp [List.countP_cons, h]

theorem nonzero_count_le (content : Nat → Nat) (n : Nat) : nonzero_count content n ≤ n := by
  unfold nonzero_count
  simpa using (List.countP_le_length (l := List.range n) (fun i => decide (content i ≠ 0)))

theorem first_non_zero_succ (content : Nat → Nat) (n : Nat) :
    first_non_zero content (n + 1) =
      (first_non_zero content n).or (if content n ≠ 0 then some n else none) := by
  unfold first_non_zero
  rw [List.range_succ, List.find?_append]
  by_cases h : content n = 0 <;> simp [h]

theorem first_non_zero_lt (content : Nat → Nat) (n p : Nat)
    (h : first_non_zero content n = some p) : p < n ∧ content p ≠ 0 := by
  unfold first_non_zero at h
  have h1 := List.mem_of_find?_eq_some h
  have h2 := List.find?_some h
  exact ⟨List.mem_range.1 h1, by simpa using h2⟩

/-- A first non-zero byte, once among the first `n` bytes, stays the first one. -/
theorem first_non_zero_mono (content : Nat → Nat) (n p : Nat)
    (h : first_non_zero content n = some p) :
    ∀ k, first_non_zero content (n + k) = some p := by
  intro k
  induction k with
  | zero => exact h
  | succ k ih => rw [← Nat.add_assoc, first_non_zero_succ, ih]; rfl

theorem first_non_zero_none_of_zero (content : Nat → Nat) (n : Nat)
    (h : ∀ i, i < n → content i = 0) : first_non_zero content n = none := by
  unfold first_non_zero
  rw [List.find?_eq_none]
  intro x hx
  simp [h x (List.mem_range.1 hx)]

theorem nonzero_count_of_zero (content : Nat → Nat) (n : Nat)
    (h : ∀ i, i < n → content i = 0) : nonzero_count content n = 0 := by
  induction n with
  | zero => rfl
  | succ n ih =>
    rw [nonzero_count_succ, ih (fun i hi => h i (by omega)), h n (by omega)]
    simp

/-- The first non-zero byte of the target, when it lies among the first `n` bytes. -/
theorem first_non_zero_eq_some (content : Nat → Nat) (n p : Nat)
    (hp : content p ≠ 0) (hz : ∀ q, q < p → content q = 0) (hn : p < n) :
    first_non_zero content n = some p := by
  obtain ⟨k, rfl⟩ : ∃ k, n = (p + 1) + k := ⟨n - (p + 1), by omega⟩
  apply first_non_zero_mono
  rw [first_non_zero_succ, first_non_zero_none_of_zero content p hz]
  simp [hp]

/-! ## The scanner: one chunk -/

/-- A stretch of zero bytes leaves the statistics and the chunk counter untouched, in
both modes. -/
theorem scan_chunk_zero (w : World) (stop : Bool) (offset : Nat) :
    ∀ (remaining index : Nat) (stats : VerificationStats) (chunk_non_zero : Nat),
      (∀ j, index ≤ j → j < index + remaining → w.content (offset + j) = 0) →
      scan_chunk w stop offset remaining index stats chunk_non_zero =
        .scanned stats chunk_non_zero := by
  intro remaining
  induction remaining with
  | zero => intro index stats cnz _; rfl
  | succ k ih =>
    intro index stats cnz h
    have h0 : w.content (offset + index) = 0 := h index (Nat.le_refl _) (by omega)
    rw [scan_chunk]
    simp only [h0, ne_eq, not_true_eq_false, if_false]
    exact ih (index + 1) stats cnz (fun j hj1 hj2 => h j (by omega) (by omega))

/-- In early-exit mode the chunk loop returns at the first non-zero byte of the chunk. -/
theorem scan_chunk_stop (w : World) (offset : Nat) :
    ∀ (remaining index : Nat) (stats : VerificationStats) (chunk_non_zero q : Nat),
      index ≤ q → q < index + remaining →
      (∀ j, index ≤ j → j < q → w.content (offset + j) = 0) →
      w.content (offset + q) ≠ 0 →
      scan_chunk w true offset remaining index stats chunk_non_zero =
        .stopped
          { bytes_read := u64_add stats.bytes_read (q + 1)
            zero_bytes := u64_sub (u64_add stats.bytes_read (q + 1))
              (u64_add stats.non_zero_bytes 1)
            non_zero_bytes := u64_add stats.non_zero_bytes 1
            first_non_zero_offset :=
              if stats.first_non_zero_offset = ULLONG_MAX then u64_add offset q
              else stats.first_non_zero_offset } := by
  intro remaining
  induction remaining with
  | zero => intro index stats cnz q h1 h2; omega
  | succ k ih =>
    intro index stats cnz q h1 h2 hz hq
    rw [scan_chunk]
    by_cases he : index = q
    · subst he
      simp only [hq, ne_eq, not_false_eq_true, if_true]
      by_cases hf : stats.first_non_zero_offset = ULLONG_MAX <;> simp [hf]
    · have h0 : w.content (offset + index) = 0 := hz index (Nat.le_refl _) (by omega)
      simp only [h0, ne_eq, not_true_eq_false, if_false]
      exact ih (index + 1) stats cnz q (by omega) (by omega)
        (fun j hj1 hj2 => hz j (by omega) hj2) hq

/-- In full-scan mode the chunk loop runs through the chunk: it counts the non-zero
bytes and records the first non-zero byte of the target. -/
theorem scan_chunk_full (w : World) (offset : Nat) :
    ∀ (remaining index : Nat) (stats : VerificationStats) (chunk_non_zero : Nat),
      offset + index + remaining < 2 ^ 64 →
      chunk_non_zero ≤ index →
      stats.first_non_zero_offset =
        (first_non_zero w.content (offset + index)).getD ULLONG_MAX →
      nonzero_count w.content offset + chunk_non_zero =
        nonzero_count w.content (offset + index) →
      ∃ chunk_non_zero1,
        scan_chunk w false offset remaining index stats chunk_non_zero =
          .scanned
            { stats with
              first_non_zero_offset :=
                (first_non_zero w.content (offset + index + remaining)).getD ULLONG_MAX }
            chunk_non_zero1 ∧
        chunk_non_zero1 ≤ index + remaining ∧
        nonzero_count w.content offset + chunk_non_zero1 =
          nonzero_count w.content (offset + index + remaining) := by
  intro remaining
  induction remaining with
  | zero =>
    intro index stats cnz _ hc hf hn
    refine ⟨cnz, ?_, hc, hn⟩
    rw [scan_chunk, Nat.add_zero, ← hf]
  | succ k ih =>
    intro index stats cnz hlt hc hf hn
    rw [scan_chunk]
    have hsucc := first_non_zero_succ w.content (offset + index)
    have hcnt := nonzero_count_succ w.content (offset + index)
    have e : offset + index + (k + 1) = offset + (index + 1) + k := by omega
    have e2 : offset + (index + 1) = offset + index + 1 := by omega
    by_cases h0 : w.content (offset + index) = 0
    · simp only [h0, ne_eq, not_true_eq_false, if_false]
      simp only [h0, ne_eq, not_true_eq_false, if_false, Option.or_none, Nat.add_zero]
        at hsucc hcnt
      obtain ⟨c1, hrun, hle, hn1⟩ := ih (index + 1) stats cnz (by omega) (by omega)
        (by rw [hf, e2, hsucc]) (by rw [hn, e2, hcnt])
      exact ⟨c1, by rw [e, hrun], by omega, by rw [e]; exact hn1⟩
    · simp only [h0, ne_eq, not_false_eq_true, if_true, Bool.false_eq_true, if_false]
      simp only [h0, ne_eq, not_false_eq_true, if_true] at hsucc hcnt
      have hadd : u64_add cnz 1 = cnz + 1 := u64_add_of_lt (by omega)
      have hoff : u64_add offset index = offset + index := u64_add_of_lt (by omega)
      rw [hadd, hoff]
      obtain ⟨c1, hrun, hle, hn1⟩ := ih (index + 1)
        (if stats.first_non_zero_offset = ULLONG_MAX then
          { stats with first_non_zero_offset := offset + index } else stats)
        (cnz + 1) (by omega) (by omega)
        (by
          rw [e2, hsucc]
          cases hfo : first_non_zero w.content (offset + index) with
          | none =>
            rw [hfo] at hf
            simp only [Option.getD_none] at hf
            rw [if_pos hf]
            simp
          | some p =>
            rw [hfo] at hf
            simp only [Option.getD_some] at hf
            have hp := (first_non_zero_lt _ _ _ hfo).1
            have hne : stats.first_non_zero_offset ≠ ULLONG_MAX := by
              rw [hf]; unfold ULLONG_MAX; omega
            rw [if_neg hne, hf]
            simp)
        (by rw [e2, hcnt]; omega)
      refine ⟨c1, ?_, by omega, by rw [e]; exact hn1⟩
      rw [e, hrun]
      by_cases hfm : stats.first_non_zero_offset = ULLONG_MAX <;> simp [hfm]

/-! ## The scanner: the loop over the chunks -/

theorem verify_chunk_size_pos : 0 < verify_chunk_size := by decide

/-- The counters after a fully scanned chunk are the statistics of the longer initial part. -/
theorem stats_of_advance (content : Nat → Nat) (offset len chunk_non_zero : Nat)
    (hlt : offset + len < 2 ^ 64)
    (hcnt : nonzero_count content offset + chunk_non_zero = nonzero_count content (offset + len)) :
    ({ bytes_read := u64_add (stats_of content offset).bytes_read len
       zero_bytes := u64_sub (u64_add (stats_of content offset).bytes_read len)
         (u64_add (stats_of content offset).non_zero_bytes chunk_non_zero)
       non_zero_bytes := u64_add (stats_of content offset).non_zero_bytes chunk_non_zero
       first_non_zero_offset := (first_non_zero content (offset + len)).getD ULLONG_MAX } :
      VerificationStats) = stats_of content (offset + len) := by
  have hle := nonzero_count_le content (offset + len)
  have h1 : u64_add (stats_of content offset).bytes_read len = offset + len :=
    u64_add_of_lt hlt
  have h2 : u64_add (stats_of content offset).non_zero_bytes chunk_non_zero
      = nonzero_count content (offset + len) := by
    show u64_add (nonzero_count content offset) chunk_non_zero = _
    rw [u64_add_of_lt (by omega), hcnt]
  rw [h1, h2, u64_sub_of_le hle hlt]
  rfl

/-- The full scan, from any chunk boundary: with enough fuel the loop returns; what it
returns are the statistics of the first `n` bytes of the target for some `n`, and the
statistics recorded after each chunk are those of growing initial parts.  Without
cancellation and with positive read results `n` is `target_size` and the return value
is true. -/
theorem verify_loop_full (w : World) (target_size : Nat) (hT : target_size < 2 ^ 64) :
    ∀ (fuel offset : Nat) (flag : Flag) (reads : Nat) (chunks : List VerificationStats),
      offset ≤ target_size → target_size - offset < fuel →
      ∃ (r : VerifyResult) (n : Nat) (ms : List Nat),
        verify_loop w target_size false fuel offset flag reads (stats_of w.content offset)
          chunks = some r ∧
        offset ≤ n ∧ n ≤ target_size ∧ r.stats = stats_of w.content n ∧
        r.chunks = chunks ++ ms.map (stats_of w.content) ∧
        List.Pairwise (fun a b => a < b) ms ∧ (∀ m ∈ ms, offset < m ∧ m ≤ n) ∧
        ((∀ i, w.sigint i = false) → flag.keep_running = true →
          (∀ i c, 0 < c → 0 < w.read_result i c) → r.ok = true ∧ n = target_size) := by
  intro fuel
  induction fuel with
  | zero => intro offset flag reads chunks _ h; omega
  | succ f ih =>
    intro offset flag reads chunks hle hfuel
    rw [verify_loop]
    by_cases h0 : offset < target_size
    · have hsub : u64_sub target_size offset = target_size - offset :=
        u64_sub_of_le hle hT
      simp only [h0, if_true, hsub]
      by_cases hk : (poll w flag).keep_running = true
      · simp only [hk, if_true]
        have hrle := w.read_le reads (min verify_chunk_size (target_size - offset))
        have hbtr : min verify_chunk_size (target_size - offset) ≤ target_size - offset :=
          Nat.min_le_right _ _
        have hbpos : 0 < min verify_chunk_size (target_size - offset) :=
          Nat.lt_min.2 ⟨verify_chunk_size_pos, by omega⟩
        by_cases hneg : w.read_result reads (min verify_chunk_size (target_size - offset)) < 0
        · simp only [hneg, if_true]
          refine ⟨_, offset, [], rfl, Nat.le_refl _, hle, rfl, by simp, by simp, by simp, ?_⟩
          intro _ _ hpos
          have := hpos reads _ hbpos
          omega
        · by_cases hzero :
            w.read_result reads (min verify_chunk_size (target_size - offset)) = 0
          · simp only [hzero, Int.lt_irrefl, if_false, if_true]
            refine ⟨_, offset, [], rfl, Nat.le_refl _, hle, rfl, by simp, by simp, by simp, ?_⟩
            intro _ _ hpos
            have := hpos reads _ hbpos
            omega
          · simp only [hneg, hzero, if_false]
            have hlt : offset +
                (w.read_result reads (min verify_chunk_size (target_size - offset))).toNat
                  < 2 ^ 64 := by omega
            obtain ⟨cnz, hrun, _, hcnt⟩ := scan_chunk_full w offset
              (w.read_result reads (min verify_chunk_size (target_size - offset))).toNat 0
              (stats_of w.content offset) 0 (by omega) (Nat.le_refl _) rfl rfl
            simp only [Nat.add_zero] at hrun hcnt
            rw [hrun]
            simp only
            rw [stats_of_advance w.content offset _ cnz hlt hcnt, u64_add_of_lt hlt]
            obtain ⟨r, n, ms, hr, hn1, hn2, hst, hch, hpw, hms, hfull⟩ := ih
              (offset +
                (w.read_result reads (min verify_chunk_size (target_size - offset))).toNat)
              (poll w flag) (reads + 1)
              (chunks ++ [stats_of w.content (offset +
                (w.read_result reads (min verify_chunk_size (target_size - offset))).toNat)])
              (by omega) (by omega)
            refine ⟨r, n, (offset +
                (w.read_result reads (min verify_chunk_size (target_size - offset))).toNat)
                :: ms, hr, by omega, hn2, hst, ?_, ?_, ?_, ?_⟩
            · rw [hch]; simp
            · rw [List.pairwise_cons]
              exact ⟨fun m hm => (hms m hm).1, hpw⟩
            · intro m hm
              rcases List.mem_cons.1 hm with rfl | hm
              · exact ⟨by omega, hn1⟩
              · exact ⟨by have := (hms m hm).1; omega, (hms m hm).2⟩
            · intro hsig _ hpos
              exact hfull hsig hk hpos
      · simp only [hk, Bool.false_eq_true, if_false]
        refine ⟨_, offset, [], rfl, Nat.le_refl _, hle, rfl, by simp, by simp, by simp, ?_⟩
        intro hsig hflag _
        rw [poll_of_no_sigint w hsig] at hk
        exact absurd hflag hk
    · simp only [h0, if_false]
      refine ⟨_, offset, [], rfl, Nat.le_refl _, hle, rfl, by simp, by simp, by simp, ?_⟩
      intro _ _ _
      exact ⟨rfl, by omega⟩

theorem zero_count_add_nonzero_count (content : Nat → Nat) (n : Nat) :
    zero_count content n + nonzero_count content n = n := by
  induction n with
  | zero => rfl
  | succ n ih =>
    rw [nonzero_count_succ]
    have : zero_count content (n + 1) =
        zero_count content n + (if content n = 0 then 1 else 0) := by
      unfold zero_count
      rw [List.range_succ, List.countP_append]
      by_cases h : content n = 0 <;> simp [List.countP_cons, h]
    rw [this]
    by_cases h : content n = 0 <;> simp [h] <;> omega

/-- The recorded first offset, once it is not the sentinel, is the same for every
longer initial part of the target. -/
theorem stats_of_first_mono (content : Nat → Nat) (m n : Nat) (hmn : m ≤ n)
    (h : (stats_of content m).first_non_zero_offset ≠ ULLONG_MAX) :
    (stats_of content n).first_non_zero_offset = (stats_of content m).first_non_zero_offset := by
  unfold stats_of at h ⊢
  simp only at h ⊢
  cases hf : first_non_zero content m with
  | none => rw [hf] at h; simp at h
  | some p =>
    obtain ⟨k, rfl⟩ : ∃ k, n = m + k := ⟨n - m, by omega⟩
    rw [first_non_zero_mono content m p hf k]

theorem stats_of_zero (content : Nat → Nat) : stats_of content 0 = VerificationStats.fresh := rfl

/-! ## C7 -/

/-- C7: for every world (target content, read results, cancellation, result of the
initial seek) and every target size, a full-scan call of `verify_target_content` with
enough fuel returns, and `zero_bytes + non_zero_bytes = bytes_read` holds for the
statistics recorded after every processed chunk and for the statistics the call leaves
behind (whether it returns true or false). -/
theorem verify_full_scan_counts_add_up (w : World) (target_size : Nat) (flag : Flag)
    (fuel : Nat) (hT : target_size < 2 ^ 64) (hfuel : target_size < fuel) :
    ∃ r, verify_target_content w target_size false flag fuel = some r ∧
      (∀ c ∈ r.chunks, c.zero_bytes + c.non_zero_bytes = c.bytes_read) ∧
      r.stats.zero_bytes + r.stats.non_zero_bytes = r.stats.bytes_read := by
  have hinv : ∀ n, (stats_of w.content n).zero_bytes + (stats_of w.content n).non_zero_bytes
      = (stats_of w.content n).bytes_read := by
    intro n
    have := nonzero_count_le w.content n
    show n - nonzero_count w.content n + nonzero_count w.content n = n
    omega
  unfold verify_target_content
  by_cases hs : w.verify_lseek_result < 0
  · simp only [hs, if_true]
    exact ⟨_, rfl, by simp, rfl⟩
  · simp only [hs, if_false]
    obtain ⟨r, n, ms, hr, _, _, hst, hch, _, _, _⟩ :=
      verify_loop_full w target_size hT fuel 0 flag 0 [] (Nat.zero_le _) (by omega)
    rw [stats_of_zero] at hr
    refine ⟨r, hr, ?_, by rw [hst]; exact hinv n⟩
    intro c hc
    rw [hch, List.nil_append, List.mem_map] at hc
    obtain ⟨m, _, rfl⟩ := hc
    exact hinv m

/-- The hypotheses of `verify_full_scan_counts_add_up` hold for a target of 10 bytes with
a non-zero byte at offset 5, read in chunks of at most 4 bytes. -/
theorem verify_full_scan_counts_add_up_witness :
    (∃ r, verify_target_content World.dirty_short_reads 10 false Flag.initial 11 = some r ∧
      (∀ c ∈ r.chunks, c.zero_bytes + c.non_zero_bytes = c.bytes_read) ∧
      r.stats.zero_bytes + r.stats.non_zero_bytes = r.stats.bytes_read) ∧
    verify_target_content World.dirty_short_reads 10 false Flag.initial 11 =
      some ⟨true, ⟨10, 9, 1, 5⟩, ⟨true, 3⟩, 3, [⟨4, 4, 0, ULLONG_MAX⟩, ⟨8, 7, 1, 5⟩,
        ⟨10, 9, 1, 5⟩]⟩ :=
  ⟨verify_full_scan_counts_add_up World.dirty_short_reads 10 Flag.initial 11 (by norm_num)
    (by decide), by decide⟩

/-! ## C8 -/

/-- The early-exit scan, from any chunk boundary at or before the first non-zero byte
`p`, all bytes before `p` being zero: without cancellation and with positive results of
the reads number `0` to `p`, the loop returns true at `p`. -/
theorem verify_loop_early (w : World) (target_size p : Nat) (hT : target_size < 2 ^ 64)
    (hp : p < target_size) (hnz : w.content p ≠ 0) (hz : ∀ q, q < p → w.content q = 0)
    (hsig : ∀ i, w.sigint i = false)
    (hpos : ∀ i c, i ≤ p → 0 < c → 0 < w.read_result i c) :
    ∀ (fuel offset : Nat) (flag : Flag) (reads : Nat) (chunks : List VerificationStats),
      offset ≤ p → reads ≤ offset → p - offset < fuel → flag.keep_running = true →
      ∃ r, verify_loop w target_size true fuel offset flag reads
          ⟨offset, offset, 0, ULLONG_MAX⟩ chunks = some r ∧
        r.ok = true ∧ r.stats = ⟨p + 1, p, 1, p⟩ := by
  intro fuel
  induction fuel with
  | zero => intro offset flag reads chunks _ _ h; omega
  | succ f ih =>
    intro offset flag reads chunks hle hreads hfuel hflag
    rw [verify_loop]
    have h0 : offset < target_size := by omega
    have hk : (poll w flag).keep_running = true := by
      rw [poll_of_no_sigint w hsig]; exact hflag
    have hsub : u64_sub target_size offset = target_size - offset :=
      u64_sub_of_le (Nat.le_of_lt h0) hT
    simp only [h0, if_true, hsub, hk]
    have hrle := w.read_le reads (min verify_chunk_size (target_size - offset))
    have hbtr : min verify_chunk_size (target_size - offset) ≤ target_size - offset :=
      Nat.min_le_right _ _
    have hbpos : 0 < min verify_chunk_size (target_size - offset) :=
      Nat.lt_min.2 ⟨verify_chunk_size_pos, by omega⟩
    have hrpos := hpos reads _ (by omega) hbpos
    have hneg : ¬ w.read_result reads (min verify_chunk_size (target_size - offset)) < 0 := by
      omega
    have hzero : ¬ w.read_result reads (min verify_chunk_size (target_size - offset)) = 0 := by
      omega
    simp only [hneg, hzero, if_false]
    by_cases hhit : p < offset +
        (w.read_result reads (min verify_chunk_size (target_size - offset))).toNat
    · have hrun := scan_chunk_stop w offset
        (w.read_result reads (min verify_chunk_size (target_size - offset))).toNat 0
        ⟨offset, offset, 0, ULLONG_MAX⟩ 0 (p - offset) (Nat.zero_le _) (by omega)
        (fun j _ hj => hz (offset + j) (by omega))
        (by
          have e : offset + (p - offset) = p := by omega
          rw [e]; exact hnz)
      rw [hrun]
      refine ⟨_, rfl, rfl, ?_⟩
      have e1 : u64_add offset (p - offset + 1) = p + 1 := by
        rw [u64_add_of_lt (by omega)]; omega
      have e2 : u64_add 0 1 = 1 := rfl
      have e3 : u64_add offset (p - offset) = p := by
        rw [u64_add_of_lt (by omega)]; omega
      have e4 : u64_sub (p + 1) 1 = p := by
        rw [u64_sub_of_le (by omega) (by omega)]; omega
      simp only [e1, e2, e3, e4, if_true]
    · have hrun := scan_chunk_zero w true offset
        (w.read_result reads (min verify_chunk_size (target_size - offset))).toNat 0
        ⟨offset, offset, 0, ULLONG_MAX⟩ 0
        (fun j _ hj => hz (offset + j) (by omega))
      rw [hrun]
      simp only
      have e1 : u64_add offset
          (w.read_result reads (min verify_chunk_size (target_size - offset))).toNat
          = offset +
            (w.read_result reads (min verify_chunk_size (target_size - offset))).toNat :=
        u64_add_of_lt (by omega)
      have e2 : u64_add 0 0 = 0 := rfl
      have e4 : ∀ x, x < 2 ^ 64 → u64_sub x 0 = x := fun x hx => by
        rw [u64_sub_of_le (Nat.zero_le _) hx]; rfl
      rw [e1, e2, e4 _ (by omega)]
      exact ih _ (poll w flag) (reads + 1) _ (by omega) (by omega) (by omega) hk

/-- C8, as amended: when the initial seek to offset 0 succeeds, for a target whose first
non-zero byte is at offset `p < target_size`, an early-exit call that is not cancelled
and whose reads up to `p` neither fail nor hit end-of-data returns true with
`first_non_zero_offset = p`, `bytes_read = p + 1` (not greater than
`first_non_zero_offset + 1`), `non_zero_bytes = 1` and `zero_bytes = bytes_read - 1`,
whatever lengths the individual reads return. -/
theorem verify_early_exit (w : World) (target_size p : Nat) (flag : Flag) (fuel : Nat)
    (hT : target_size < 2 ^ 64) (hp : p < target_size)
    (hnz : w.content p ≠ 0) (hz : ∀ q, q < p → w.content q = 0)
    (hfuel : p < fuel)
    (hseek : 0 ≤ w.verify_lseek_result)
    (hsig : ∀ i, w.sigint i = false) (hflag : flag.keep_running = true)
    (hpos : ∀ i c, i ≤ p → 0 < c → 0 < w.read_result i c) :
    ∃ r, verify_target_content w target_size true flag fuel = some r ∧
      r.ok = true ∧
      r.stats.first_non_zero_offset = p ∧
      r.stats.bytes_read = p + 1 ∧
      r.stats.bytes_read ≤ r.stats.first_non_zero_offset + 1 ∧
      r.stats.non_zero_bytes = 1 ∧
      r.stats.zero_bytes = r.stats.bytes_read - 1 := by
  unfold verify_target_content
  have hs : ¬ w.verify_lseek_result < 0 := by omega
  simp only [hs, if_false]
  obtain ⟨r, hr, hok, hst⟩ := verify_loop_early w target_size p hT hp hnz hz hsig hpos fuel 0
    flag 0 [] (Nat.zero_le _) (Nat.le_refl _) (by omega) hflag
  refine ⟨r, hr, hok, ?_⟩
  rw [hst]
  simp

/-- The hypotheses of `verify_early_exit` hold for a target of 10 bytes with its first
non-zero byte at offset 5, read in chunks of at most 4 bytes. -/
theorem verify_early_exit_witness :
    (∃ r, verify_target_content World.dirty_short_reads 10 true Flag.initial 6 = some r ∧
      r.ok = true ∧
      r.stats.first_non_zero_offset = 5 ∧
      r.stats.bytes_read = 5 + 1 ∧
      r.stats.bytes_read ≤ r.stats.first_non_zero_offset + 1 ∧
      r.stats.non_zero_bytes = 1 ∧
      r.stats.zero_bytes = r.stats.bytes_read - 1) ∧
    verify_target_content World.dirty_short_reads 10 true Flag.initial 6 =
      some ⟨true, ⟨6, 5, 1, 5⟩, ⟨true, 2⟩, 2, [⟨4, 4, 0, ULLONG_MAX⟩]⟩ :=
  ⟨verify_early_exit World.dirty_short_reads 10 5 Flag.initial 6 (by norm_num) (by decide)
    (by decide)
    (fun q hq => by
      show (if q = 5 then 1 else 0) = 0
      have : q ≠ 5 := by omega
      simp [this])
    (by decide) (by decide) (fun _ => rfl) rfl
    (fun _ c _ hc => by
      show 0 < min (c : Int) 4
      omega), by decide⟩

/-- C8 as stated fails: when the `lseek` of line 84 fails, an early-exit call on a target
with a non-zero byte at offset 5, not cancelled and with reads that would not fail,
returns false with `first_non_zero_offset` at the sentinel and `non_zero_bytes = 0`. -/
theorem verify_early_exit_seek_counterexample :
    World.dirty_unseekable.content 5 ≠ 0 ∧
    (∀ i, World.dirty_unseekable.sigint i = false) ∧
    (∀ i c, 0 < c → 0 < World.dirty_unseekable.read_result i c) ∧
    verify_target_content World.dirty_unseekable 10 true Flag.initial 11 =
      some ⟨false, ⟨0, 0, 0, ULLONG_MAX⟩, Flag.initial, 0, []⟩ :=
  ⟨by decide, fun _ => rfl, fun _ c hc => by
    show 0 < (c : Int)
    omega, by decide⟩

/-! ## C9 -/

/-- C10, as amended: when the initial seek to offset 0 succeeds, a full-scan call that is
never cancelled and whose reads all return a positive count returns true with
`bytes_read = target_size`, `non_zero_bytes` the number of non-zero bytes of the target,
`zero_bytes` the number of zero bytes, and `first_non_zero_offset` the offset of the
first non-zero byte (the sentinel `ULLONG_MAX` if there is none); once a recorded
`first_non_zero_offset` is not the sentinel, every later chunk and the final result
carry the same value. -/
theorem verify_full_scan_complete (w : World) (target_size : Nat) (flag : Flag) (fuel : Nat)
    (hT : target_size < 2 ^ 64) (hfuel : target_size < fuel)
    (hseek : 0 ≤ w.verify_lseek_result)
    (hsig : ∀ i, w.sigint i = false) (hflag : flag.keep_running = true)
    (hpos : ∀ i c, 0 < c → 0 < w.read_result i c) :
    ∃ r, verify_target_content w target_size false flag fuel = some r ∧
      r.ok = true ∧
      r.stats.bytes_read = target_size ∧
      r.stats.non_zero_bytes = nonzero_count w.content target_size ∧
      r.stats.zero_bytes = zero_count w.content target_size ∧
      r.stats.first_non_zero_offset = (first_non_zero w.content target_size).getD ULLONG_MAX ∧
      List.Pairwise (fun a b => a.first_non_zero_offset ≠ ULLONG_MAX →
        b.first_non_zero_offset = a.first_non_zero_offset) r.chunks ∧
      (∀ c ∈ r.chunks, c.first_non_zero_offset ≠ ULLONG_MAX →
        r.stats.first_non_zero_offset = c.first_non_zero_offset) := by
  unfold verify_target_content
  have hs : ¬ w.verify_lseek_result < 0 := by omega
  simp only [hs, if_false]
  obtain ⟨r, n, ms, hr, _, _, hst, hch, hpw, hms, hfull⟩ :=
    verify_loop_full w target_size hT fuel 0 flag 0 [] (Nat.zero_le _) (by omega)
  rw [stats_of_zero] at hr
  obtain ⟨hok, hn⟩ := hfull hsig hflag hpos
  subst hn
  have hz := zero_count_add_nonzero_count w.content n
  refine ⟨r, hr, hok, by rw [hst]; rfl, by rw [hst]; rfl, ?_, by rw [hst]; rfl, ?_, ?_⟩
  · rw [hst]
    show n - nonzero_count w.content n = zero_count w.content n
    omega
  · rw [hch, List.nil_append, List.pairwise_map]
    refine hpw.imp ?_
    intro a b hab hne
    exact stats_of_first_mono w.content a b (Nat.le_of_lt hab) hne
  · intro c hc hne
    rw [hch, List.nil_append, List.mem_map] at hc
    obtain ⟨m, hm, rfl⟩ := hc
    rw [hst]
    exact stats_of_first_mono w.content m n (hms m hm).2 hne

/-- The hypotheses of `verify_full_scan_complete` hold for a target of 10 bytes with a
non-zero byte at offset 5, read in chunks of at most 4 bytes. -/
theorem verify_full_scan_complete_witness :
    ∃ r, verify_target_content World.dirty_short_reads 10 false Flag.initial 11 = some r ∧
      r.ok = true ∧
      r.stats.bytes_read = 10 ∧
      r.stats.non_zero_bytes = nonzero_count World.dirty_short_reads.content 10 ∧
      r.stats.zero_bytes = zero_count World.dirty_short_reads.content 10 ∧
      r.stats.first_non_zero_offset =
        (first_non_zero World.dirty_short_reads.content 10).getD ULLONG_MAX ∧
      List.Pairwise (fun a b => a.first_non_zero_offset ≠ ULLONG_MAX →
        b.first_non_zero_offset = a.first_non_zero_offset) r.chunks ∧
      (∀ c ∈ r.chunks, c.first_non_zero_offset ≠ ULLONG_MAX →
        r.stats.first_non_zero_offset = c.first_non_zero_offset) :=
  verify_full_scan_complete World.dirty_short_reads 10 Flag.initial 11 (by norm_num)
    (by decide) (by decide) (fun _ => rfl) rfl
    (fun _ c hc => by
      show 0 < min (c : Int) 4
      omega)

/-- C10 as stated fails: when the `lseek` of line 84 fails, a full-scan call that is
never cancelled and whose reads would all return a positive count returns false
without reading, with `bytes_read = 0` for a target of 10 bytes. -/
theorem verify_full_scan_seek_counterexample :
    (∀ i, World.unseekable.sigint i = false) ∧
    (∀ i c, 0 < c → 0 < World.unseekable.read_result i c) ∧
    verify_target_content World.unseekable 10 false Flag.initial 11 =
      some ⟨false, ⟨0, 0, 0, ULLONG_MAX⟩, Flag.initial, 0, []⟩ :=
  ⟨fun _ => rfl, fun _ c hc => by
    show 0 < (c : Int)
    omega, by decide⟩

/-! ## C11 -/

/-- C11: `ask_user_to_continue` returns true if and only if `std::cin` is in good state
after the `getline` and the line, lower-cased character by character, is "y" or "yes".
A line "Y", "yes" or "YES" delivered in good state gives true; the lines "", "no" and
"n" (as any other line) give false; a stream that is not in good state gives false
whatever line it left. -/
theorem ask_user_to_continue_spec (w : World) :
    (ask_user_to_continue w = true ↔
      w.stdin_good = true ∧
        (w.stdin_line.map tolower = ['y'] ∨ w.stdin_line.map tolower = ['y', 'e', 's'])) ∧
    ask_user_to_continue { w with stdin_line := ['Y'], stdin_good := true } = true ∧
    ask_user_to_continue { w with stdin_line := ['y', 'e', 's'], stdin_good := true } = true ∧
    ask_user_to_continue { w with stdin_line := ['Y', 'E', 'S'], stdin_good := true } = true ∧
    ask_user_to_continue { w with stdin_line := [], stdin_good := true } = false ∧
    ask_user_to_continue { w with stdin_line := ['n', 'o'], stdin_good := true } = false ∧
    ask_user_to_continue { w with stdin_line := ['n'], stdin_good := true } = false ∧
    (∀ line, line.map tolower ≠ ['y'] → line.map tolower ≠ ['y', 'e', 's'] →
      ask_user_to_continue { w with stdin_line := line, stdin_good := true } = false) ∧
    (∀ line, ask_user_to_continue { w with stdin_line := line, stdin_good := false } = false) := by
  have hiff : ∀ v : World, ask_user_to_continue v = true ↔
      v.stdin_good = true ∧
        (v.stdin_line.map tolower = ['y'] ∨ v.stdin_line.map tolower = ['y', 'e', 's']) := by
    intro v
    unfold ask_user_to_continue
    cases hg : v.stdin_good <;> simp
  refine ⟨hiff w, rfl, rfl, rfl, rfl, rfl, rfl, ?_, ?_⟩
  · intro line h1 h2
    cases h : ask_user_to_continue { w with stdin_line := line, stdin_good := true }
    · rfl
    · rcases ((hiff _).1 h).2 with h3 | h3
      · exact absurd h3 h1
      · exact absurd h3 h2
  · intro line
    rfl

/-! ## C12 -/

/-- The erase loop returns from `main` only with `EXIT_SEEK_FAILED` or
`EXIT_WRITE_FAILED`. -/
theorem erase_loop_returned_code (w : World) (device_size erase_size skip_size : Nat)
    (simulate_mode : Bool) :
    ∀ (fuel : Nat) (s s1 : EraseState) (code : Nat),
      erase_loop w device_size erase_size skip_size simulate_mode fuel s = .returned code s1 →
      code = EXIT_SEEK_FAILED ∨ code = EXIT_WRITE_FAILED := by
  intro fuel
  induction fuel with
  | zero => intro s s1 code h; simp [erase_loop] at h
  | succ n ih =>
    intro s s1 code h
    rw [erase_loop] at h
    by_cases h0 : s.offset < device_size
    · simp only [h0, if_true] at h
      by_cases hk : (poll w s.flag).keep_running = true
      · simp only [hk, if_true] at h
        cases hst : erase_step w device_size erase_size skip_size simulate_mode
            { s with flag := poll w s.flag } with
        | next s2 => rw [hst] at h; exact ih s2 s1 code h
        | returned code2 s2 =>
          rw [hst] at h
          simp only [LoopOutcome.returned.injEq] at h
          obtain ⟨_, _, _, _, _, hc⟩ := erase_step_returned _ _ _ _ _ _ _ _ hst
          rw [← h.1]
          rcases hc with hc | hc
          · exact Or.inl hc.1
          · exact Or.inr hc.1
        | out_of_fuel => exact absurd hst (erase_step_ne_out_of_fuel _ _ _ _ _ _)
      · simp [hk] at h
    · simp [h0] at h

/-- From the countdown on, `main` never returns `EXIT_USER_ABORTED`, in any world: it
returns 0 after an interrupted countdown, is terminated when the buffer cannot be
allocated, returns the code of a failed seek or write, or returns `EXIT_OK` when the
loop has exited, whether by covering the target or by cancellation. -/
theorem main_erase_exit_code (w : World) (c : Config) (fuel : Nat) (flag : Flag)
    (verify : Option VerifyResult) (gate : Option Bool) (res : MainResult)
    (h : main_erase w c fuel flag verify gate = some res) :
    ((poll w (countdown w flag)).keep_running = false → res.exit_code = 0) ∧
    (res.completed = some false → res.exit_code = EXIT_OK) ∧
    res.exit_code ≠ EXIT_USER_ABORTED := by
  unfold main_erase at h
  by_cases hk : (poll w (countdown w flag)).keep_running = true
  · simp only [hk, Bool.not_true, Bool.false_eq_true, if_false] at h
    by_cases ha : (!c.simulate_mode && !w.alloc_ok c.erase_size) = true
    · rw [if_pos ha] at h
      simp only [Option.some.injEq] at h; subst h
      exact ⟨fun hf => (by rw [hk] at hf; cases hf), fun hc => (by cases hc),
        (by show TERMINATED_BAD_ALLOC ≠ EXIT_USER_ABORTED; decide)⟩
    · rw [if_neg ha] at h
      cases hl : erase_loop w c.device_size c.erase_size c.skip_size c.simulate_mode fuel
          (EraseState.initial (poll w (countdown w flag))) with
      | exited s =>
        rw [hl] at h; simp only [Option.some.injEq] at h; subst h
        exact ⟨fun hf => (by rw [hk] at hf; cases hf), fun _ => rfl,
          (by show EXIT_OK ≠ EXIT_USER_ABORTED; decide)⟩
      | returned code s =>
        rw [hl] at h; simp only [Option.some.injEq] at h; subst h
        refine ⟨fun hf => (by rw [hk] at hf; cases hf), fun hc => (by cases hc), ?_⟩
        rcases erase_loop_returned_code _ _ _ _ _ _ _ _ _ hl with hc | hc <;>
          simp only [hc] <;> decide
      | pending s => rw [hl] at h; simp at h
  · simp only [hk, Bool.not_false, if_true, Option.some.injEq] at h
    subst h
    exact ⟨fun _ => rfl, fun hc => (by cases hc),
      (by show 0 ≠ EXIT_USER_ABORTED; decide)⟩

/-- C12 fails on the code.  A `SIGINT` during the verify-only scan makes `main` return
`EXIT_USER_ABORTED` (line 436).  A `SIGINT` during the countdown makes `main` return 0
(line 471), in simulation and in a real run.  A `SIGINT` between the steps 2 and 3 of
the erase loop makes `main` report the run as interrupted and return `EXIT_OK`
(line 558).  A `SIGINT` during the scan of `--verify-zero` ends the scan, skips the
countdown and makes `main` return 0 as well.  The same happens with the sizes `main`
builds from the arguments "10" and "10" on a target of 100 MiB: interrupted after the
second step, `main` reports the interruption and returns `EXIT_OK`. -/
theorem main_interrupted_exit_codes :
    (main (World.cancel_at 0) ⟨false, false, true, 100, 0, 0⟩ 101).map
        (fun r => r.exit_code) = some EXIT_USER_ABORTED ∧
    main (World.cancel_at 2) ⟨true, false, false, 100, 10, 10⟩ 101 =
      some ⟨0, none, none, none, none⟩ ∧
    main (World.cancel_at 2) ⟨false, false, false, 100, 10, 10⟩ 101 =
      some ⟨0, none, none, none, none⟩ ∧
    (main (World.cancel_at 8) ⟨false, false, false, 100, 10, 10⟩ 101).map
        (fun r => (r.exit_code, r.completed, r.erase.map (fun s => s.seeks))) =
      some (EXIT_OK, some false, some [0, 20]) ∧
    (main (World.cancel_at 0) ⟨false, true, false, 100, 10, 10⟩ 101).map
        (fun r => (r.exit_code, r.erase)) = some (0, none) ∧
    EXIT_OK ≠ EXIT_USER_ABORTED ∧
    parse_sizes "10".toList "10".toList false = some (10485760, 10485760) ∧
    (main (World.cancel_at 8) ⟨false, false, false, 104857600, 10485760, 10485760⟩ 101).map
        (fun r => (r.exit_code, r.completed, r.erase.map (fun s => s.seeks))) =
      some (EXIT_OK, some false, some [0, 20971520]) := by
  refine ⟨by decide, by decide, by decide, by decide, by decide, by decide, by decide,
    by decide⟩

/-! ## C13 -/

/-- C13 fails on the code.  For the arguments "1" and "17592186044415" `parse_size_mb`
returns `erase_size = 2 ^ 20 > 0` and `skip_size = 2 ^ 64 - 2 ^ 20`; their 64-bit sum,
the step width of the loop, is 0.  On a target of 4 MiB, without cancellation and
without I/O failure, the offset is 0 after every step and the loop never exits, in a
real run and in simulation: whatever the fuel, the loop is still running and all its
seeks went to offset 0. -/
theorem erase_loop_no_progress :
    parse_sizes "1".toList "17592186044415".toList false = some (2 ^ 20, 2 ^ 64 - 2 ^ 20) ∧
    0 < 2 ^ 20 ∧
    u64_add (2 ^ 20) (2 ^ 64 - 2 ^ 20) = 0 ∧
    (∀ simulate_mode n, ∃ s,
      erase_loop World.quiet 4194304 (2 ^ 20) (2 ^ 64 - 2 ^ 20) simulate_mode n
        (EraseState.initial Flag.initial) = .pending s ∧
      s.offset = 0 ∧ s.seeks = List.replicate n 0) := by
  refine ⟨by decide, by decide, by decide, ?_⟩
  intro simulate_mode n
  obtain ⟨s, hrun, hoff, hseeks⟩ := erase_loop_zero_step World.quiet 4194304 (2 ^ 20)
    (2 ^ 64 - 2 ^ 20) simulate_mode (by decide) (by decide) (fun _ => rfl)
    (fun _ => le_refl _)
    (fun _ c hc => by
      show 0 < (c : Int)
      omega) n (EraseState.initial Flag.initial) rfl rfl
  exact ⟨s, hrun, hoff, by simpa [EraseState.initial] using hseeks⟩

/-! ## C14 -/

/-- The two ways a call of `parse_size_mb` can end: rejected with `out_bytes` as it was
and a message in `error`, or accepted after `stoull` processed the whole string. -/
theorem parse_size_mb_cases (raw_value : Option (List Char)) (allow_zero : Bool)
    (out_bytes : Nat) (error : Option ParseError) :
    (∃ e, parse_size_mb raw_value allow_zero out_bytes error = ⟨false, out_bytes, some e⟩) ∨
    (∃ value mb_value, raw_value = some value ∧ value ≠ [] ∧ value.head? ≠ some '-' ∧
      stoull value = .value mb_value value.length ∧
      (allow_zero = true ∨ 0 < mb_value) ∧
      mb_value * 1048576 ≤ SIZE_MAX ∧
      parse_size_mb raw_value allow_zero out_bytes error =
        ⟨true, mb_value * 1048576, error⟩) := by
  unfold parse_size_mb
  simp only
  by_cases h1 : (raw_value.getD []).isEmpty = true
  · exact Or.inl ⟨_, by rw [if_pos h1]⟩
  · rw [if_neg h1]
    by_cases h2 : (raw_value.getD []).head? = some '-'
    · exact Or.inl ⟨_, by rw [if_pos h2]⟩
    · rw [if_neg h2]
      cases hraw : raw_value with
      | none => simp [hraw] at h1
      | some value =>
        simp only [hraw, Option.getD_some] at h1 h2 ⊢
        cases hst : stoull value with
        | invalid_argument => exact Or.inl ⟨_, rfl⟩
        | out_of_range => exact Or.inl ⟨_, rfl⟩
        | value mb parsed =>
          simp only
          by_cases h3 : parsed ≠ value.length
          · exact Or.inl ⟨_, by rw [if_pos h3]⟩
          · rw [if_neg h3]
            have hp : parsed = value.length := by simpa using h3
            subst hp
            by_cases h4 : (!allow_zero && mb == 0) = true
            · exact Or.inl ⟨_, by rw [if_pos h4]⟩
            · rw [if_neg h4]
              by_cases h5 : mb > SIZE_MAX / bytes_per_mb
              · exact Or.inl ⟨_, by rw [if_pos h5]⟩
              · rw [if_neg h5]
                have hfit : mb * 1048576 ≤ SIZE_MAX := by
                  have h5' : mb ≤ SIZE_MAX / bytes_per_mb := Nat.le_of_not_lt h5
                  have := (Nat.le_div_iff_mul_le (by decide : 0 < bytes_per_mb)).1 h5'
                  simpa [bytes_per_mb] using this
                refine Or.inr ⟨value, mb, rfl, by simpa using h1, h2, hst, ?_, hfit, ?_⟩
                · cases allow_zero
                  · right
                    have : ¬ mb = 0 := by simpa using h4
                    omega
                  · left; rfl
                · have : u64_mul mb bytes_per_mb = mb * 1048576 := by
                    unfold u64_mul bytes_per_mb
                    unfold SIZE_MAX at hfit
                    omega
                  rw [this]

/-- A rejected argument leaves `out_bytes` as it was and stores a message in `error`. -/
theorem parse_size_mb_rejected (raw_value : Option (List Char)) (allow_zero : Bool)
    (out_bytes : Nat) (error : Option ParseError)
    (h : (parse_size_mb raw_value allow_zero out_bytes error).ok = false) :
    (parse_size_mb raw_value allow_zero out_bytes error).out_bytes = out_bytes ∧
    (parse_size_mb raw_value allow_zero out_bytes error).error ≠ none := by
  rcases parse_size_mb_cases raw_value allow_zero out_bytes error with
    ⟨e, he⟩ | ⟨value, mb, _, _, _, _, _, _, he⟩
  · rw [he]; exact ⟨rfl, by simp⟩
  · rw [he] at h; simp at h

/-- An accepted argument: `stoull` processed the whole string and returned a value
`mb_value` that is positive unless zero is allowed, `mb_value * 1048576` fits in
`size_t`, `out_bytes` is exactly that product and `error` is untouched. -/
theorem parse_size_mb_accepted (raw_value : Option (List Char)) (allow_zero : Bool)
    (out_bytes : Nat) (error : Option ParseError)
    (h : (parse_size_mb raw_value allow_zero out_bytes error).ok = true) :
    ∃ value mb_value, raw_value = some value ∧ value ≠ [] ∧ value.head? ≠ some '-' ∧
      stoull value = .value mb_value value.length ∧
      (allow_zero = true ∨ 0 < mb_value) ∧
      mb_value * 1048576 ≤ SIZE_MAX ∧
      (parse_size_mb raw_value allow_zero out_bytes error).out_bytes = mb_value * 1048576 ∧
      (parse_size_mb raw_value allow_zero out_bytes error).error = error := by
  rcases parse_size_mb_cases raw_value allow_zero out_bytes error with
    ⟨e, he⟩ | ⟨value, mb, h1, h2, h3, h4, h5, h6, he⟩
  · rw [he] at h; simp at h
  · exact ⟨value, mb, h1, h2, h3, h4, h5, h6, by rw [he], by rw [he]⟩

/-- What `strip_sign` removes: nothing, a plus sign or a minus sign. -/
theorem strip_sign_spec (l : List Char) :
    ∃ sign, l = sign ++ (strip_sign l).2 ∧
      ((sign = [] ∧ (strip_sign l).1 = false) ∨ (sign = ['+'] ∧ (strip_sign l).1 = false) ∨
        (sign = ['-'] ∧ (strip_sign l).1 = true)) := by
  cases l with
  | nil => exact ⟨[], rfl, Or.inl ⟨rfl, rfl⟩⟩
  | cons c rest =>
    unfold strip_sign
    by_cases hp : c = '+'
    · subst hp
      exact ⟨['+'], by simp, Or.inr (Or.inl ⟨rfl, by simp⟩)⟩
    · by_cases hm : c = '-'
      · subst hm
        exact ⟨['-'], by simp, Or.inr (Or.inr ⟨rfl, by simp⟩)⟩
      · exact ⟨[], by simp [hp, hm], Or.inl ⟨rfl, by simp [hp, hm]⟩⟩

/-- A string that `stoull` processes to its end is white space, an optional sign and
at least one decimal digit; the value returned is the value of the digits, negated
in 64 bits when the sign is a minus sign. -/
theorem stoull_value_shape (value : List Char) (mb_value : Nat)
    (h : stoull value = .value mb_value value.length) :
    ∃ spaces sign digits, value = spaces ++ sign ++ digits ∧
      (∀ c ∈ spaces, isspace c = true) ∧
      (sign = [] ∨ sign = ['+'] ∨ sign = ['-']) ∧
      digits ≠ [] ∧ (∀ c ∈ digits, c.isDigit = true) ∧
      decimal_value digits ≤ ULLONG_MAX ∧
      mb_value = (if sign = ['-'] then u64_sub 0 (decimal_value digits)
        else decimal_value digits) := by
  unfold stoull at h
  simp only at h
  obtain ⟨sign, hsub, hsign⟩ := strip_sign_spec (value.dropWhile isspace)
  have hv := List.takeWhile_append_dropWhile isspace value
  have hr := List.takeWhile_append_dropWhile Char.isDigit
    (strip_sign (value.dropWhile isspace)).2
  by_cases hd : ((strip_sign (value.dropWhile isspace)).2.takeWhile Char.isDigit).isEmpty = true
  · rw [if_pos hd] at h; cases h
  · rw [if_neg hd] at h
    by_cases hov : ULLONG_MAX <
        decimal_value ((strip_sign (value.dropWhile isspace)).2.takeWhile Char.isDigit)
    · rw [if_pos hov] at h; cases h
    · rw [if_neg hov] at h
      simp only [StoullResult.value.injEq] at h
      obtain ⟨hmb, hlen⟩ := h
      have l1 := congrArg List.length hv
      have l2 := congrArg List.length hsub
      have l3 := congrArg List.length hr
      simp only [List.length_append] at l1 l2 l3
      have htail : ((strip_sign (value.dropWhile isspace)).2.dropWhile Char.isDigit).length
          = 0 := by omega
      have htail2 : (strip_sign (value.dropWhile isspace)).2.dropWhile Char.isDigit = [] :=
        List.length_eq_zero.1 htail
      rw [htail2, List.append_nil] at hr
      refine ⟨value.takeWhile isspace, sign,
        (strip_sign (value.dropWhile isspace)).2.takeWhile Char.isDigit, ?_, ?_, ?_, ?_, ?_,
        Nat.le_of_not_lt hov, ?_⟩
      · rw [hr, List.append_assoc, ← hsub, hv]
      · intro c hc
        exact List.mem_takeWhile_imp hc
      · rcases hsign with h1 | h1 | h1
        · exact Or.inl h1.1
        · exact Or.inr (Or.inl h1.1)
        · exact Or.inr (Or.inr h1.1)
      · intro hnil
        rw [hnil] at hd
        simp at hd
      · intro c hc
        exact List.mem_takeWhile_imp hc
      · rw [← hmb]
        rcases hsign with h1 | h1 | h1
        · rw [h1.1, h1.2]; simp
        · rw [h1.1, h1.2]; simp
        · rw [h1.1, h1.2]; simp

/-- C14 fails on the code.  The argument " -18446744073709551615" (a blank, then a
negative number) passes the check `value[0] == '-'`; `stoull` processes all its 22
characters and returns 1, the negation of `2 ^ 64 - 1` in `unsigned long long`;
`parse_size_mb` returns true with `out_bytes = 1048576`, and `main` goes on with
`erase_size` of 1 MiB.  The same number without the blank is rejected as negative.  The
other rejections the claim lists do happen, with `out_bytes` left as it was: a null
pointer, the empty string, "-5", "abc", "8x", "8 " and "0" with `allow_zero = false`;
"0" is accepted with `allow_zero = true`; `2 ^ 44` MB is rejected as too large for
`size_t` and `2 ^ 44 - 1` MB is accepted without wrap-around. -/
theorem parse_size_mb_accepts_negative :
    stoull " -18446744073709551615".toList = .value 1 22 ∧
    parse_size_mb (some " -18446744073709551615".toList) false 7 none =
      ⟨true, 1048576, none⟩ ∧
    parse_sizes " -18446744073709551615".toList "0".toList false = some (1048576, 0) ∧
    parse_size_mb (some "-18446744073709551615".toList) false 7 none =
      ⟨false, 7, some .negative⟩ ∧
    parse_size_mb none false 7 none = ⟨false, 7, some .empty⟩ ∧
    parse_size_mb (some "".toList) false 7 none = ⟨false, 7, some .empty⟩ ∧
    parse_size_mb (some "-5".toList) true 7 none = ⟨false, 7, some .negative⟩ ∧
    parse_size_mb (some "abc".toList) true 7 none = ⟨false, 7, some .not_integer⟩ ∧
    parse_size_mb (some "8x".toList) true 7 none = ⟨false, 7, some .invalid_characters⟩ ∧
    parse_size_mb (some "8 ".toList) true 7 none = ⟨false, 7, some .invalid_characters⟩ ∧
    parse_size_mb (some "0".toList) false 7 none = ⟨false, 7, some .zero⟩ ∧
    parse_size_mb (some "0".toList) true 7 none = ⟨true, 0, none⟩ ∧
    parse_size_mb (some "17592186044416".toList) true 7 none =
      ⟨false, 7, some .too_large_for_system⟩ ∧
    parse_size_mb (some "17592186044415".toList) true 7 none =
      ⟨true, 2 ^ 64 - 2 ^ 20, none⟩ := by
  refine ⟨by decide, by decide, by decide, by decide, by decide, by decide, by decide,
    by decide, by decide, by decide, by decide, by decide, by decide, by decide⟩

end Eraser
